import Mathlib

/-!
Verification development for the SchemaPin Rust core
(`src/rust/src`): a shallow embedding of the error taxonomy, the
verification result type, the TOFU key-pin store, the JSON and skill
canonicalizers and the verification orchestrators, together with
theorems settling the specification claims.

Conventions of the embedding:
* machine byte strings are `List Nat` (each entry < 256 in practice);
* the external SHA-256 primitive, key-fingerprint computation and ECDSA
  signature verification are abstracted as explicit function parameters,
  exactly as the Rust code treats them as opaque library calls;
* `Utc::now().to_rfc3339()` is an explicit `now : String` parameter;
* `HashMap<String, PinnedTool>` is an association list with first-match
  lookup; `BTreeMap` is a key-sorted association list.
-/

namespace SchemaPin

/-! ## Error taxonomy (`src/rust/src/error.rs`) -/

/-- The closed error-code enumeration from `error.rs`. -/
inductive ErrorCode where
  | SignatureInvalid
  | KeyNotFound
  | KeyRevoked
  | KeyPinMismatch
  | DiscoveryFetchFailed
  | DiscoveryInvalid
  | DomainMismatch
  | SchemaCanonicalizationFailed
deriving DecidableEq, Repr

/-- The `Error` enum of `error.rs`, restricted to the variants the verification
core can actually produce (crypto/PKCS8/SPKI collapse into `crypto`). -/
inductive Err where
  | verification (code : ErrorCode) (message : String)
  | io (message : String)
  | discovery (message : String)
  | crypto (message : String)
deriving DecidableEq, Repr

/-! ## Pin-store data model (`src/rust/src/types/pinning.rs`) -/

/-- Trust level for a pinned key. -/
inductive TrustLevel where
  | tofu
  | verified
  | pinned
deriving DecidableEq, Repr

/-- A single pinned key entry. -/
structure PinnedKey where
  fingerprint : String
  first_seen : String
  last_seen : String
  trust_level : TrustLevel
deriving DecidableEq, Repr

/-- A pinned tool with its associated domain and keys. -/
structure PinnedTool where
  tool_id : String
  domain : String
  pinned_keys : List PinnedKey
deriving DecidableEq, Repr

/-- Result of checking a key against the pin store (`pinning.rs`). -/
inductive PinningResult where
  | FirstUse
  | Matched
  | Changed
deriving DecidableEq, Repr

/-- In-memory TOFU key pinning store, keyed by `"tool_id@domain"`.
The Rust `HashMap<String, PinnedTool>` is modelled as an association list
with first-match lookup; the operations keep keys unique. -/
structure KeyPinStore where
  tools : List (String × PinnedTool)
deriving DecidableEq, Repr

namespace KeyPinStore

/-- The empty store (`KeyPinStore::new`). -/
def new : KeyPinStore := ⟨[]⟩

/-- Composite key for the store (`KeyPinStore::composite_key`). -/
def compositeKey (tool_id domain : String) : String :=
  tool_id ++ "@" ++ domain

/-- `HashMap::get` on the model. -/
def lookupTool (s : KeyPinStore) (key : String) : Option PinnedTool :=
  (s.tools.find? (fun p => p.1 == key)).map (·.2)

/-- `HashMap::get_mut` followed by an in-place update of the entry. -/
def updateTool (s : KeyPinStore) (key : String) (f : PinnedTool → PinnedTool) :
    KeyPinStore :=
  ⟨s.tools.map (fun p => if p.1 == key then (p.1, f p.2) else p)⟩

/-- `HashMap::insert` of a key known to be absent. -/
def insertTool (s : KeyPinStore) (key : String) (t : PinnedTool) : KeyPinStore :=
  ⟨s.tools ++ [(key, t)]⟩

/-- `pinned_keys.iter_mut().find(|pk| pk.fingerprint == fingerprint)` followed
by `pk.last_seen = now`: update the first matching key's `last_seen`. -/
def touchFirst (fingerprint now : String) : List PinnedKey → List PinnedKey
  | [] => []
  | pk :: rest =>
    if pk.fingerprint == fingerprint then { pk with last_seen := now } :: rest
    else pk :: touchFirst fingerprint now rest

/-- `KeyPinStore::check_and_pin`. The `now` argument stands for the single
`Utc::now().to_rfc3339()` read at the top of the Rust function. -/
def check_and_pin (s : KeyPinStore) (tool_id domain fingerprint now : String) :
    PinningResult × KeyPinStore :=
  let key := compositeKey tool_id domain
  match s.lookupTool key with
  | some pinned =>
    if (pinned.pinned_keys.find? (fun pk => pk.fingerprint == fingerprint)).isSome then
      (.Matched,
       s.updateTool key (fun t => { t with pinned_keys := touchFirst fingerprint now t.pinned_keys }))
    else
      (.Changed, s)
  | none =>
    (.FirstUse,
     s.insertTool key
       { tool_id := tool_id, domain := domain,
         pinned_keys := [{ fingerprint := fingerprint, first_seen := now,
                           last_seen := now, trust_level := .tofu }] })

/-- `KeyPinStore::add_key`: `entry(key).or_insert_with(empty tool)` followed by
a push of the fingerprint when it is not yet present. -/
def add_key (s : KeyPinStore) (tool_id domain fingerprint now : String) : KeyPinStore :=
  let key := compositeKey tool_id domain
  let (pinned, s1) :=
    match s.lookupTool key with
    | some t => (t, s)
    | none =>
      let t : PinnedTool := { tool_id := tool_id, domain := domain, pinned_keys := [] }
      (t, s.insertTool key t)
  if pinned.pinned_keys.any (fun pk => pk.fingerprint == fingerprint) then s1
  else
    s1.updateTool key (fun t =>
      { t with pinned_keys := t.pinned_keys ++
          [{ fingerprint := fingerprint, first_seen := now,
             last_seen := now, trust_level := .tofu }] })

/-- `KeyPinStore::get_tool`. -/
def get_tool (s : KeyPinStore) (tool_id domain : String) : Option PinnedTool :=
  s.lookupTool (compositeKey tool_id domain)

end KeyPinStore

/-- `check_pinning` (`pinning.rs`): check and error on a changed key. -/
def check_pinning (s : KeyPinStore) (tool_id domain fingerprint now : String) :
    Except Err PinningResult × KeyPinStore :=
  let (result, s') := s.check_and_pin tool_id domain fingerprint now
  if result = .Changed then
    (.error (.verification .KeyPinMismatch
      ("Key for '" ++ tool_id ++ "@" ++ domain ++
       "' has changed since last pinned (fingerprint: '" ++ fingerprint ++ "')")), s')
  else
    (.ok result, s')

/-! ## Pin-store lemmas -/

namespace KeyPinStore

theorem lookupTool_insertTool_self {s : KeyPinStore} {key : String} {t : PinnedTool}
    (h : s.lookupTool key = none) : (s.insertTool key t).lookupTool key = some t := by
  unfold lookupTool insertTool at *
  have hfind : s.tools.find? (fun p => p.1 == key) = none := by
    cases hf : s.tools.find? (fun p => p.1 == key) with
    | none => rfl
    | some q => rw [hf] at h; simp at h
  simp [List.find?_append, hfind]

theorem lookupTool_insertTool_other {s : KeyPinStore} {key k : String} {t : PinnedTool}
    (h : k ≠ key) : (s.insertTool key t).lookupTool k = s.lookupTool k := by
  unfold lookupTool insertTool
  have : (key == k) = false := by simp [Ne.symm h]
  simp [List.find?_append, this]

theorem lookupTool_updateTool_self {s : KeyPinStore} {key : String} {t : PinnedTool}
    {f : PinnedTool → PinnedTool} (h : s.lookupTool key = some t) :
    (s.updateTool key f).lookupTool key = some (f t) := by
  unfold lookupTool updateTool at *
  rw [List.find?_map]
  have hpred : ((fun p : String × PinnedTool => p.1 == key) ∘
      (fun p : String × PinnedTool => if p.1 == key then (p.1, f p.2) else p)) =
      (fun p : String × PinnedTool => p.1 == key) := by
    funext p; by_cases hp : p.1 = key <;> simp [hp]
  rw [hpred]
  cases hf : s.tools.find? (fun p => p.1 == key) with
  | none => rw [hf] at h; simp at h
  | some q =>
    rw [hf] at h
    have hq := List.find?_some hf
    have hqk : q.1 = key := by simpa using hq
    simp at h
    simp [hqk, h]

theorem lookupTool_updateTool_other {s : KeyPinStore} {key k : String}
    {f : PinnedTool → PinnedTool} (h : k ≠ key) :
    (s.updateTool key f).lookupTool k = s.lookupTool k := by
  unfold lookupTool updateTool
  rw [List.find?_map]
  have hpred : ((fun p : String × PinnedTool => p.1 == k) ∘
      (fun p : String × PinnedTool => if p.1 == key then (p.1, f p.2) else p)) =
      (fun p : String × PinnedTool => p.1 == k) := by
    funext p; by_cases hp : p.1 = key <;> simp [hp]
  rw [hpred]
  cases hf : s.tools.find? (fun p => p.1 == k) with
  | none => simp
  | some q =>
    have hq := List.find?_some hf
    have hqk : q.1 = k := by simpa using hq
    simp [hqk, h]

/-- Computation rule: `check_and_pin` on an unseen `tool_id@domain`. -/
theorem check_and_pin_of_none {s : KeyPinStore} {tid dom : String} (fp now : String)
    (h : s.lookupTool (compositeKey tid dom) = none) :
    s.check_and_pin tid dom fp now =
      (.FirstUse, s.insertTool (compositeKey tid dom)
        { tool_id := tid, domain := dom,
          pinned_keys := [{ fingerprint := fp, first_seen := now,
                            last_seen := now, trust_level := .tofu }] }) := by
  unfold check_and_pin
  simp only [h]

/-- Computation rule: `check_and_pin` on a record holding the fingerprint. -/
theorem check_and_pin_of_matched {s : KeyPinStore} {tid dom fp : String} (now : String)
    {t : PinnedTool} (h : s.lookupTool (compositeKey tid dom) = some t)
    (hfp : ∃ pk ∈ t.pinned_keys, pk.fingerprint = fp) :
    s.check_and_pin tid dom fp now =
      (.Matched, s.updateTool (compositeKey tid dom)
        (fun t => { t with pinned_keys := touchFirst fp now t.pinned_keys })) := by
  have hfind : (t.pinned_keys.find? (fun pk => pk.fingerprint == fp)).isSome := by
    rw [List.find?_isSome]
    obtain ⟨pk, hpk, h1⟩ := hfp
    exact ⟨pk, hpk, by simp [h1]⟩
  unfold check_and_pin
  simp only [h]
  simp [hfind]

/-- Computation rule: `check_and_pin` on a record without the fingerprint. -/
theorem check_and_pin_of_changed {s : KeyPinStore} {tid dom fp : String} (now : String)
    {t : PinnedTool} (h : s.lookupTool (compositeKey tid dom) = some t)
    (hfp : ∀ pk ∈ t.pinned_keys, pk.fingerprint ≠ fp) :
    s.check_and_pin tid dom fp now = (.Changed, s) := by
  have hfind : ¬(t.pinned_keys.find? (fun pk => pk.fingerprint == fp)).isSome := by
    rw [List.find?_isSome]
    rintro ⟨pk, hpk, h1⟩
    exact hfp pk hpk (by simpa using h1)
  unfold check_and_pin
  simp only [h]
  simp [hfind]

theorem touchFirst_eq_set {fp : String} (now : String) {l : List PinnedKey}
    (h : ∃ pk ∈ l, pk.fingerprint = fp) :
    ∃ i, ∃ hi : i < l.length, (l.get ⟨i, hi⟩).fingerprint = fp ∧
      touchFirst fp now l = l.set i { l.get ⟨i, hi⟩ with last_seen := now } := by
  induction l with
  | nil => simp at h
  | cons pk rest ih =>
    by_cases hpk : pk.fingerprint = fp
    · refine ⟨0, by simp, by simpa using hpk, ?_⟩
      unfold touchFirst
      simp [hpk]
    · obtain ⟨pk', hmem, hfp⟩ := h
      rcases List.mem_cons.mp hmem with rfl | hmem'
      · exact absurd hfp hpk
      · obtain ⟨i, hi, hget, heq⟩ := ih ⟨pk', hmem', hfp⟩
        refine ⟨i + 1, by simpa using Nat.succ_lt_succ hi, by simpa using hget, ?_⟩
        unfold touchFirst
        simp only [hpk, beq_iff_eq, if_false, List.set_cons_succ]
        simp [heq]

end KeyPinStore

/-- C1: the TOFU state machine of `check_and_pin`. No record: `FirstUse` and a
new `PinnedTool` with a single tofu key whose `first_seen` equals `last_seen`;
matching key: `Matched`, only that key's `last_seen` is updated and no entry is
added; non-matching key: `Changed` and the store is untouched. -/
theorem C1_check_and_pin_tofu (s : KeyPinStore) (tid dom fp now : String) :
    (s.lookupTool (KeyPinStore.compositeKey tid dom) = none →
      (s.check_and_pin tid dom fp now).1 = .FirstUse ∧
      (s.check_and_pin tid dom fp now).2.lookupTool (KeyPinStore.compositeKey tid dom) =
        some { tool_id := tid, domain := dom,
               pinned_keys := [{ fingerprint := fp, first_seen := now,
                                 last_seen := now, trust_level := .tofu }] } ∧
      (∀ k, k ≠ KeyPinStore.compositeKey tid dom →
        (s.check_and_pin tid dom fp now).2.lookupTool k = s.lookupTool k))
  ∧ (∀ t, s.lookupTool (KeyPinStore.compositeKey tid dom) = some t →
      (∃ pk ∈ t.pinned_keys, pk.fingerprint = fp) →
      (s.check_and_pin tid dom fp now).1 = .Matched ∧
      (∃ i, ∃ hi : i < t.pinned_keys.length,
        (t.pinned_keys.get ⟨i, hi⟩).fingerprint = fp ∧
        (s.check_and_pin tid dom fp now).2.lookupTool (KeyPinStore.compositeKey tid dom) =
          some { t with pinned_keys :=
            t.pinned_keys.set i { t.pinned_keys.get ⟨i, hi⟩ with last_seen := now } }) ∧
      (∀ k, k ≠ KeyPinStore.compositeKey tid dom →
        (s.check_and_pin tid dom fp now).2.lookupTool k = s.lookupTool k))
  ∧ (∀ t, s.lookupTool (KeyPinStore.compositeKey tid dom) = some t →
      (∀ pk ∈ t.pinned_keys, pk.fingerprint ≠ fp) →
      (s.check_and_pin tid dom fp now).1 = .Changed ∧
      (s.check_and_pin tid dom fp now).2 = s) := by
  refine ⟨fun hnone => ?_, fun t hsome hmem => ?_, fun t hsome hnomem => ?_⟩
  · rw [KeyPinStore.check_and_pin_of_none fp now hnone]
    exact ⟨rfl, KeyPinStore.lookupTool_insertTool_self hnone,
      fun k hk => KeyPinStore.lookupTool_insertTool_other hk⟩
  · rw [KeyPinStore.check_and_pin_of_matched now hsome hmem]
    refine ⟨rfl, ?_, fun k hk => KeyPinStore.lookupTool_updateTool_other hk⟩
    obtain ⟨i, hi, hget, heq⟩ := KeyPinStore.touchFirst_eq_set now hmem
    refine ⟨i, hi, hget, ?_⟩
    rw [KeyPinStore.lookupTool_updateTool_self hsome, heq]
  · rw [KeyPinStore.check_and_pin_of_changed now hsome hnomem]
    exact ⟨rfl, rfl⟩

/-- Concrete instantiation of `C1_check_and_pin_tofu`: first use pins, a
matching second use only touches `last_seen`, a different key changes nothing. -/
theorem C1_check_and_pin_tofu_witness :
    ((KeyPinStore.new.check_and_pin "calc" "example.com" "sha256:key1" "t0").1 =
        .FirstUse ∧
      (KeyPinStore.new.check_and_pin "calc" "example.com" "sha256:key1" "t0").2.lookupTool
          (KeyPinStore.compositeKey "calc" "example.com") =
        some { tool_id := "calc", domain := "example.com",
               pinned_keys := [{ fingerprint := "sha256:key1", first_seen := "t0",
                                 last_seen := "t0", trust_level := .tofu }] }) ∧
    ((((KeyPinStore.new.check_and_pin "calc" "example.com" "sha256:key1" "t0").2).check_and_pin
        "calc" "example.com" "sha256:key1" "t1").1 = .Matched) ∧
    ((((KeyPinStore.new.check_and_pin "calc" "example.com" "sha256:key1" "t0").2).check_and_pin
        "calc" "example.com" "sha256:key2" "t1").1 = .Changed ∧
     (((KeyPinStore.new.check_and_pin "calc" "example.com" "sha256:key1" "t0").2).check_and_pin
        "calc" "example.com" "sha256:key2" "t1").2 =
       (KeyPinStore.new.check_and_pin "calc" "example.com" "sha256:key1" "t0").2) := by
  refine ⟨?_, ?_, ?_⟩
  · have h := (C1_check_and_pin_tofu KeyPinStore.new "calc" "example.com" "sha256:key1" "t0").1
      (by decide)
    exact ⟨h.1, h.2.1⟩
  · exact (((C1_check_and_pin_tofu
      ((KeyPinStore.new.check_and_pin "calc" "example.com" "sha256:key1" "t0").2)
      "calc" "example.com" "sha256:key1" "t1").2.1)
      { tool_id := "calc", domain := "example.com",
        pinned_keys := [{ fingerprint := "sha256:key1", first_seen := "t0",
                          last_seen := "t0", trust_level := .tofu }] }
      (by decide) ⟨{ fingerprint := "sha256:key1", first_seen := "t0",
                     last_seen := "t0", trust_level := .tofu }, by decide, rfl⟩).1
  · exact ((C1_check_and_pin_tofu
      ((KeyPinStore.new.check_and_pin "calc" "example.com" "sha256:key1" "t0").2)
      "calc" "example.com" "sha256:key2" "t1").2.2)
      { tool_id := "calc", domain := "example.com",
        pinned_keys := [{ fingerprint := "sha256:key1", first_seen := "t0",
                          last_seen := "t0", trust_level := .tofu }] }
      (by decide) (by decide)

/-- C10: `add_key` with an already-pinned fingerprint returns the store
unchanged; `add_key` on a fresh `(tool_id, domain)` pair creates a record
holding exactly that one key at trust level tofu. -/
theorem C10_add_key_idempotent_and_total (s : KeyPinStore) (tid dom fp now : String) :
    (∀ t, s.lookupTool (KeyPinStore.compositeKey tid dom) = some t →
      (∃ pk ∈ t.pinned_keys, pk.fingerprint = fp) →
      s.add_key tid dom fp now = s)
  ∧ (s.lookupTool (KeyPinStore.compositeKey tid dom) = none →
      (s.add_key tid dom fp now).lookupTool (KeyPinStore.compositeKey tid dom) =
        some { tool_id := tid, domain := dom,
               pinned_keys := [{ fingerprint := fp, first_seen := now,
                                 last_seen := now, trust_level := .tofu }] } ∧
      (∀ k, k ≠ KeyPinStore.compositeKey tid dom →
        (s.add_key tid dom fp now).lookupTool k = s.lookupTool k)) := by
  constructor
  · intro t hsome hmem
    have hany : t.pinned_keys.any (fun pk => pk.fingerprint == fp) := by
      rw [List.any_eq_true]
      obtain ⟨pk, hpk, hfp⟩ := hmem
      exact ⟨pk, hpk, by simp [hfp]⟩
    unfold KeyPinStore.add_key
    simp only [hsome]
    simp [hany]
  · intro hnone
    have heq : s.add_key tid dom fp now =
        (s.insertTool (KeyPinStore.compositeKey tid dom)
          { tool_id := tid, domain := dom, pinned_keys := [] }).updateTool
          (KeyPinStore.compositeKey tid dom)
          (fun t => { t with pinned_keys := t.pinned_keys ++
            [{ fingerprint := fp, first_seen := now,
               last_seen := now, trust_level := .tofu }] }) := by
      unfold KeyPinStore.add_key
      simp [hnone]
    have hins : (s.insertTool (KeyPinStore.compositeKey tid dom)
        { tool_id := tid, domain := dom, pinned_keys := [] }).lookupTool
        (KeyPinStore.compositeKey tid dom) =
        some { tool_id := tid, domain := dom, pinned_keys := [] } :=
      KeyPinStore.lookupTool_insertTool_self hnone
    constructor
    · rw [heq, KeyPinStore.lookupTool_updateTool_self hins]
      simp
    · intro k hk
      rw [heq, KeyPinStore.lookupTool_updateTool_other hk,
        KeyPinStore.lookupTool_insertTool_other hk]

/-- Concrete instantiation of `C10_add_key_idempotent_and_total`. -/
theorem C10_add_key_witness :
    (((KeyPinStore.new.check_and_pin "calc" "example.com" "sha256:key1" "t0").2).add_key
        "calc" "example.com" "sha256:key1" "t1" =
      (KeyPinStore.new.check_and_pin "calc" "example.com" "sha256:key1" "t0").2) ∧
    ((KeyPinStore.new.add_key "calc" "example.com" "sha256:key1" "t0").lookupTool
        (KeyPinStore.compositeKey "calc" "example.com") =
      some { tool_id := "calc", domain := "example.com",
             pinned_keys := [{ fingerprint := "sha256:key1", first_seen := "t0",
                               last_seen := "t0", trust_level := .tofu }] }) := by
  constructor
  · exact (C10_add_key_idempotent_and_total
      ((KeyPinStore.new.check_and_pin "calc" "example.com" "sha256:key1" "t0").2)
      "calc" "example.com" "sha256:key1" "t1").1
      { tool_id := "calc", domain := "example.com",
        pinned_keys := [{ fingerprint := "sha256:key1", first_seen := "t0",
                          last_seen := "t0", trust_level := .tofu }] }
      (by decide) ⟨{ fingerprint := "sha256:key1", first_seen := "t0",
                     last_seen := "t0", trust_level := .tofu }, by decide, rfl⟩
  · exact ((C10_add_key_idempotent_and_total KeyPinStore.new "calc" "example.com"
      "sha256:key1" "t0").2 (by decide)).1

/-! ## String ordering

Rust compares `String`s by their UTF-8 bytes, which coincides with
lexicographic comparison of Unicode code points. We implement that
comparison directly so that it is kernel-computable. -/

/-- Lexicographic comparison of char lists by code point. -/
def charListLt : List Char → List Char → Bool
  | [], [] => false
  | [], _ :: _ => true
  | _ :: _, [] => false
  | c :: cs, d :: ds =>
    if c.toNat < d.toNat then true
    else if d.toNat < c.toNat then false
    else charListLt cs ds

/-- Rust `String` ordering (strict): lexicographic on code points. -/
def strLt (a b : String) : Bool := charListLt a.data b.data

theorem charListLt_irrefl : ∀ l : List Char, charListLt l l = false
  | [] => rfl
  | c :: cs => by
    unfold charListLt
    simp [charListLt_irrefl cs]

theorem charListLt_trans : ∀ {a b c : List Char},
    charListLt a b = true → charListLt b c = true → charListLt a c = true
  | [], _ :: _, _ :: _, _, _ => rfl
  | a :: as, b :: bs, c :: cs, h1, h2 => by
    unfold charListLt at h1 h2 ⊢
    by_cases hab : a.toNat < b.toNat <;> by_cases hbc : b.toNat < c.toNat
    · simp [Nat.lt_trans hab hbc]
    · simp only [hbc, if_false] at h2
      by_cases hcb : c.toNat < b.toNat
      · simp [hcb] at h2
      · have hbceq : b.toNat = c.toNat := Nat.le_antisymm (Nat.le_of_not_lt hcb) (Nat.le_of_not_lt hbc)
        simp [hbceq ▸ hab]
    · simp only [hab, if_false] at h1
      by_cases hba : b.toNat < a.toNat
      · simp [hba] at h1
      · have habeq : a.toNat = b.toNat := Nat.le_antisymm (Nat.le_of_not_lt hba) (Nat.le_of_not_lt hab)
        simp [habeq ▸ hbc]
    · simp only [hab, if_false] at h1
      simp only [hbc, if_false] at h2
      by_cases hba : b.toNat < a.toNat
      · simp [hba] at h1
      · by_cases hcb : c.toNat < b.toNat
        · simp [hcb] at h2
        · have habeq : a.toNat = b.toNat :=
            Nat.le_antisymm (Nat.le_of_not_lt hba) (Nat.le_of_not_lt hab)
          have hbceq : b.toNat = c.toNat :=
            Nat.le_antisymm (Nat.le_of_not_lt hcb) (Nat.le_of_not_lt hbc)
          have hac : ¬(a.toNat < c.toNat) := by omega
          have hca : ¬(c.toNat < a.toNat) := by omega
          simp only [hba, if_false] at h1
          simp only [hcb, if_false] at h2
          simp [hac, hca, charListLt_trans h1 h2]

theorem charListLt_total_eq : ∀ {a b : List Char},
    charListLt a b = false → charListLt b a = false → a = b
  | [], [], _, _ => rfl
  | [], _ :: _, h1, _ => by simp [charListLt] at h1
  | _ :: _, [], _, h2 => by simp [charListLt] at h2
  | a :: as, b :: bs, h1, h2 => by
    unfold charListLt at h1 h2
    by_cases hab : a.toNat < b.toNat
    · simp [hab] at h1
    · by_cases hba : b.toNat < a.toNat
      · simp [hba] at h2
      · have habeq : a.toNat = b.toNat :=
          Nat.le_antisymm (Nat.le_of_not_lt hba) (Nat.le_of_not_lt hab)
        have hc : a = b := Char.eq_of_val_eq (by
          have : a.val.toNat = b.val.toNat := habeq
          exact UInt32.toNat.inj this)
        simp only [hab, hba, if_false] at h1 h2
        rw [hc, charListLt_total_eq h1 h2]

theorem strLt_irrefl (a : String) : strLt a a = false := charListLt_irrefl a.data

theorem strLt_trans {a b c : String} (h1 : strLt a b = true) (h2 : strLt b c = true) :
    strLt a c = true := charListLt_trans h1 h2

theorem strLt_total_eq {a b : String} (h1 : strLt a b = false) (h2 : strLt b a = false) :
    a = b := by
  have h : a.data = b.data := charListLt_total_eq h1 h2
  cases a
  cases b
  exact congrArg String.mk (by simpa using h)

theorem strLt_asymm {a b : String} (h : strLt a b = true) : strLt b a = false := by
  by_contra hc
  have h2 : strLt b a = true := by
    cases hba : strLt b a
    · exact absurd hba hc
    · rfl
  have := strLt_trans h h2
  rw [strLt_irrefl] at this
  exact Bool.false_ne_true this

/-! ## `BTreeMap<String, _>`: a key-sorted association list -/

/-- `BTreeMap::insert` on a key-sorted association list: place the pair at its
ordered position, replacing an existing binding of the same key. -/
def btInsert {α : Type} (k : String) (v : α) : List (String × α) → List (String × α)
  | [] => [(k, v)]
  | (k', v') :: rest =>
    if strLt k k' then (k, v) :: (k', v') :: rest
    else if k = k' then (k, v) :: rest
    else (k', v') :: btInsert k v rest

/-- Collect a list of pairs into a `BTreeMap` (later bindings win). -/
def btBuild {α : Type} (l : List (String × α)) : List (String × α) :=
  l.foldl (fun m p => btInsert p.1 p.2 m) []

/-- Strictly ascending keys: the well-formedness invariant of `BTreeMap`. -/
def KeysSorted {α : Type} (l : List (String × α)) : Prop :=
  l.Pairwise (fun p q => strLt p.1 q.1 = true)

instance {α : Type} (l : List (String × α)) : Decidable (KeysSorted l) := by
  unfold KeysSorted
  infer_instance

theorem btInsert_subset {α : Type} {k : String} {v : α} :
    ∀ {l : List (String × α)} {q : String × α},
    q ∈ btInsert k v l → q = (k, v) ∨ q ∈ l := by
  intro l
  induction l with
  | nil => intro q hq; simpa [btInsert] using hq
  | cons p rest ih =>
    obtain ⟨pk, pv⟩ := p
    intro q hq
    unfold btInsert at hq
    by_cases h1 : strLt k pk = true
    · rw [if_pos h1] at hq
      rcases List.mem_cons.mp hq with h | h
      · exact Or.inl h
      · exact Or.inr h
    · rw [if_neg h1] at hq
      by_cases h2 : k = pk
      · rw [if_pos h2] at hq
        rcases List.mem_cons.mp hq with h | h
        · exact Or.inl h
        · exact Or.inr (List.mem_cons_of_mem _ h)
      · rw [if_neg h2] at hq
        rcases List.mem_cons.mp hq with h | h
        · exact Or.inr (by simp [h])
        · rcases ih h with h' | h'
          · exact Or.inl h'
          · exact Or.inr (List.mem_cons_of_mem _ h')

theorem btInsert_keysSorted {α : Type} {k : String} {v : α} :
    ∀ {l : List (String × α)}, KeysSorted l → KeysSorted (btInsert k v l) := by
  intro l
  induction l with
  | nil => intro _; simp [btInsert, KeysSorted]
  | cons p rest ih =>
    obtain ⟨pk, pv⟩ := p
    intro hs
    have hp := (List.pairwise_cons.mp hs).1
    have hrest := (List.pairwise_cons.mp hs).2
    unfold btInsert
    by_cases h1 : strLt k pk = true
    · rw [if_pos h1]
      refine List.pairwise_cons.mpr ⟨?_, hs⟩
      intro q hq
      rcases List.mem_cons.mp hq with h | hq'
      · rw [h]
        exact h1
      · exact strLt_trans h1 (hp q hq')
    · rw [if_neg h1]
      by_cases h2 : k = pk
      · rw [if_pos h2]
        refine List.pairwise_cons.mpr ⟨?_, hrest⟩
        intro q hq
        rw [show (k, v).1 = pk from h2]
        exact hp q hq
      · rw [if_neg h2]
        refine List.pairwise_cons.mpr ⟨?_, ih hrest⟩
        intro q hq
        rcases btInsert_subset hq with h | hq'
        · rw [h]
          cases hlt : strLt pk k
          · exact absurd (strLt_total_eq (a := k) (b := pk) (by simpa using h1) hlt) h2
          · rfl
        · exact hp q hq'

theorem btBuild_keysSorted {α : Type} (l : List (String × α)) : KeysSorted (btBuild l) := by
  have general : ∀ (l : List (String × α)) (acc : List (String × α)), KeysSorted acc →
      KeysSorted (l.foldl (fun m p => btInsert p.1 p.2 m) acc) := by
    intro l
    induction l with
    | nil => intro acc h; exact h
    | cons p rest ih => intro acc h; exact ih _ (btInsert_keysSorted h)
  exact general l [] (by simp [KeysSorted])

theorem btBuild_subset {α : Type} {l : List (String × α)} {q : String × α}
    (h : q ∈ btBuild l) : q ∈ l := by
  have general : ∀ (l acc : List (String × α)) (q : String × α),
      q ∈ l.foldl (fun m p => btInsert p.1 p.2 m) acc → q ∈ acc ∨ q ∈ l := by
    intro l
    induction l with
    | nil => intro acc q h; exact Or.inl h
    | cons p rest ih =>
      intro acc q h
      rcases ih _ q h with h' | h'
      · rcases btInsert_subset h' with rfl | h''
        · exact Or.inr (by simp)
        · exact Or.inl h''
      · exact Or.inr (List.mem_cons_of_mem _ h')
  rcases general l [] q h with h' | h'
  · simp at h'
  · exact h'

theorem btInsert_mem_iff {α : Type} {k : String} {v : α} :
    ∀ {l : List (String × α)}, KeysSorted l → ∀ {q : String × α},
    (q ∈ btInsert k v l ↔ q = (k, v) ∨ (q ∈ l ∧ q.1 ≠ k)) := by
  intro l
  induction l with
  | nil => intro _ q; simp [btInsert]
  | cons p rest ih =>
    obtain ⟨pk, pv⟩ := p
    intro hs q
    have hp := (List.pairwise_cons.mp hs).1
    have hrest := (List.pairwise_cons.mp hs).2
    unfold btInsert
    by_cases h1 : strLt k pk = true
    · rw [if_pos h1]
      constructor
      · intro hq
        rcases List.mem_cons.mp hq with h | hq'
        · exact Or.inl h
        · refine Or.inr ⟨hq', ?_⟩
          rcases List.mem_cons.mp hq' with h | hq''
          · intro hqk
            rw [h] at hqk
            simp only at hqk
            rw [hqk] at h1
            rw [strLt_irrefl] at h1
            exact Bool.false_ne_true h1
          · intro hqk
            have := strLt_trans h1 (hp q hq'')
            rw [hqk, strLt_irrefl] at this
            exact Bool.false_ne_true this
      · intro hq
        rcases hq with h | ⟨hq', _⟩
        · exact h ▸ List.mem_cons_self _ _
        · exact List.mem_cons_of_mem _ hq'
    · rw [Bool.not_eq_true] at h1
      by_cases h2 : k = pk
      · subst h2
        rw [if_neg (by simp [h1]), if_pos rfl]
        constructor
        · intro hq
          rcases List.mem_cons.mp hq with h | hq'
          · exact Or.inl h
          · refine Or.inr ⟨List.mem_cons_of_mem _ hq', ?_⟩
            intro hqk
            have := hp q hq'
            rw [hqk, strLt_irrefl] at this
            exact Bool.false_ne_true this
        · rintro (h | ⟨hq', hqk⟩)
          · exact h ▸ List.mem_cons_self _ _
          · rcases List.mem_cons.mp hq' with h | hq''
            · exfalso
              apply hqk
              rw [h]
            · exact List.mem_cons_of_mem _ hq''
      · rw [if_neg (by simp [h1]), if_neg h2]
        rw [List.mem_cons, ih hrest]
        constructor
        · rintro (h | h | ⟨hq'', hqk⟩)
          · refine Or.inr ⟨?_, ?_⟩
            · rw [h]
              exact List.mem_cons_self _ _
            · rw [h]
              exact fun hh => h2 hh.symm
          · exact Or.inl h
          · exact Or.inr ⟨List.mem_cons_of_mem _ hq'', hqk⟩
        · rintro (h | ⟨hq', hqk⟩)
          · exact Or.inr (Or.inl h)
          · rcases List.mem_cons.mp hq' with h | hq''
            · exact Or.inl h
            · exact Or.inr (Or.inr ⟨hq'', hqk⟩)

/-- Strictly sorted keys are duplicate-free. -/
theorem keysSorted_keys_nodup {α : Type} :
    ∀ {l : List (String × α)}, KeysSorted l → (l.map Prod.fst).Nodup := by
  intro l
  induction l with
  | nil => intro _; simp
  | cons p rest ih =>
    intro h
    have hp := (List.pairwise_cons.mp h).1
    have hrest := (List.pairwise_cons.mp h).2
    simp only [List.map_cons, List.nodup_cons]
    refine ⟨?_, ih hrest⟩
    intro hmem
    rcases List.mem_map.mp hmem with ⟨q, hq, hfst⟩
    have := hp q hq
    rw [hfst, strLt_irrefl] at this
    exact Bool.false_ne_true this


theorem btInsert_keys_subset {α : Type} {k : String} {v : α} {l : List (String × α)}
    {x : String} (h : x ∈ (btInsert k v l).map Prod.fst) : x = k ∨ x ∈ l.map Prod.fst := by
  rcases List.mem_map.mp h with ⟨q, hq, rfl⟩
  rcases btInsert_subset hq with rfl | hq'
  · exact Or.inl rfl
  · exact Or.inr (List.mem_map_of_mem _ hq')

theorem btBuild_mem_iff {α : Type} {l : List (String × α)}
    (hnd : (l.map Prod.fst).Nodup) {q : String × α} : q ∈ btBuild l ↔ q ∈ l := by
  have general : ∀ (l acc : List (String × α)), KeysSorted acc →
      (l.map Prod.fst).Nodup →
      (∀ x ∈ l.map Prod.fst, x ∉ acc.map Prod.fst) →
      ∀ q : String × α,
      (q ∈ l.foldl (fun m p => btInsert p.1 p.2 m) acc ↔ q ∈ acc ∨ q ∈ l) := by
    intro l
    induction l with
    | nil => intro acc _ _ _ q; simp
    | cons p rest ih =>
      intro acc hacc hnd hdis q
      have hmap : (p.1 :: rest.map Prod.fst).Nodup := by simpa using hnd
      have hnd' : (rest.map Prod.fst).Nodup := hmap.of_cons
      have hp1new : p.1 ∉ rest.map Prod.fst := (List.nodup_cons.mp hmap).1
      have hdis' : ∀ x ∈ rest.map Prod.fst, x ∉ (btInsert p.1 p.2 acc).map Prod.fst := by
        intro x hx hmem
        rcases btInsert_keys_subset hmem with rfl | hmem'
        · exact hp1new hx
        · exact hdis x (List.mem_cons_of_mem _ hx) hmem'
      have hstep := ih (btInsert p.1 p.2 acc) (btInsert_keysSorted hacc) hnd' hdis' q
      rw [List.foldl_cons, hstep, btInsert_mem_iff hacc]
      constructor
      · rintro ((h | ⟨hq, _⟩) | hq)
        · exact Or.inr (by simp [h])
        · exact Or.inl hq
        · exact Or.inr (List.mem_cons_of_mem _ hq)
      · rintro (hq | hq)
        · refine Or.inl (Or.inr ⟨hq, ?_⟩)
          intro hqp
          exact hdis p.1 (by simp) (hqp ▸ List.mem_map_of_mem Prod.fst hq)
        · rcases List.mem_cons.mp hq with h | hq'
          · exact Or.inl (Or.inl (by simp [h]))
          · exact Or.inr hq'
  have h := general l [] (by simp [KeysSorted]) hnd (by simp) q
  rw [btBuild, h]
  simp

/-- Two collections of the same pairs with duplicate-free keys build the same
`BTreeMap`. -/
theorem btBuild_perm_eq {α : Type} {l₁ l₂ : List (String × α)}
    (hperm : List.Perm l₁ l₂) (hnd : (l₁.map Prod.fst).Nodup) :
    btBuild l₁ = btBuild l₂ := by
  have hnd₂ : (l₂.map Prod.fst).Nodup := ((hperm.map Prod.fst).nodup_iff).mp hnd
  have hmem : ∀ q, q ∈ btBuild l₁ ↔ q ∈ btBuild l₂ := by
    intro q
    rw [btBuild_mem_iff hnd, btBuild_mem_iff hnd₂]
    exact hperm.mem_iff
  have hnodup₁ : (btBuild l₁).Nodup :=
    (keysSorted_keys_nodup (btBuild_keysSorted l₁)).of_map
  have hnodup₂ : (btBuild l₂).Nodup :=
    (keysSorted_keys_nodup (btBuild_keysSorted l₂)).of_map
  have hperm' : List.Perm (btBuild l₁) (btBuild l₂) :=
    (List.perm_ext_iff_of_nodup hnodup₁ hnodup₂).mpr hmem
  have : IsAntisymm (String × α) (fun p q => strLt p.1 q.1 = true) := by
    constructor
    intro a b h1 h2
    rw [strLt_asymm h1] at h2
    exact absurd h2 Bool.false_ne_true
  exact List.eq_of_perm_of_sorted hperm' (btBuild_keysSorted l₁) (btBuild_keysSorted l₂)

/-! ## JSON values and the canonicalizer (`src/rust/src/canonicalize.rs`) -/

/-- `serde_json::Value`. Numbers are carried as their `serde_json` canonical
rendering (a string), since number formatting is wholly delegated to
`serde_json` and two `Value` numbers are equal iff they render equally. -/
inductive Json where
  | null
  | bool (b : Bool)
  | num (s : String)
  | str (s : String)
  | arr (xs : List Json)
  | obj (fields : List (String × Json))

/-- One hex digit, lowercase. -/
def hexDigit (n : Nat) : Char :=
  if n < 10 then Char.ofNat (48 + n) else Char.ofNat (87 + n)

/-- UTF-8 encoding of a single code point, as byte values. -/
def utf8Char (n : Nat) : List Nat :=
  if n < 128 then [n]
  else if n < 2048 then [192 + n / 64, 128 + n % 64]
  else if n < 65536 then [224 + n / 4096, 128 + (n / 64) % 64, 128 + n % 64]
  else [240 + n / 262144, 128 + (n / 4096) % 64, 128 + (n / 64) % 64, 128 + n % 64]

/-- UTF-8 bytes of a string (what Rust's `str::as_bytes` yields). -/
def utf8Bytes (s : String) : List Nat :=
  (s.data.map (fun c => utf8Char c.toNat)).flatten

/-- `serde_json`'s escaping of a single character inside a JSON string. -/
def escapeJsonChar (c : Char) : String :=
  if c = '"' then "\\\""
  else if c = '\\' then "\\\\"
  else if c.toNat = 8 then "\\b"
  else if c.toNat = 9 then "\\t"
  else if c.toNat = 10 then "\\n"
  else if c.toNat = 12 then "\\f"
  else if c.toNat = 13 then "\\r"
  else if c.toNat < 32 then
    String.mk ['\\', 'u', '0', '0', hexDigit (c.toNat / 16), hexDigit (c.toNat % 16)]
  else String.singleton c

/-- `serde_json` rendering of a JSON string literal. -/
def renderJsonString (s : String) : String :=
  "\"" ++ String.join (s.data.map escapeJsonChar) ++ "\""

mutual

/-- `serde_json::to_string`: compact rendering with no insignificant
whitespace, object fields in stored order. -/
def renderJson : Json → String
  | .null => "null"
  | .bool true => "true"
  | .bool false => "false"
  | .num s => s
  | .str s => renderJsonString s
  | .arr xs => "[" ++ renderArr xs ++ "]"
  | .obj fs => "\x7b" ++ renderObj fs ++ "\x7d"

/-- Comma-separated rendering of array elements. -/
def renderArr : List Json → String
  | [] => ""
  | [x] => renderJson x
  | x :: y :: rest => renderJson x ++ "," ++ renderArr (y :: rest)

/-- Comma-separated rendering of object fields. -/
def renderObj : List (String × Json) → String
  | [] => ""
  | [(k, v)] => renderJsonString k ++ ":" ++ renderJson v
  | (k, v) :: f :: rest =>
    renderJsonString k ++ ":" ++ renderJson v ++ "," ++ renderObj (f :: rest)

end

mutual

/-- `sort_keys_recursive` (`canonicalize.rs`): recursively sort all object
keys, producing a new value. Collecting into a `BTreeMap` is `btBuild`. -/
def sort_keys_recursive : Json → Json
  | .null => .null
  | .bool b => .bool b
  | .num s => .num s
  | .str s => .str s
  | .arr xs => .arr (sortKeysArr xs)
  | .obj fs => .obj (btBuild (sortKeysFields fs))

/-- `arr.iter().map(sort_keys_recursive).collect()`. -/
def sortKeysArr : List Json → List Json
  | [] => []
  | x :: xs => sort_keys_recursive x :: sortKeysArr xs

/-- `map.iter().map(|(k, v)| (k.clone(), sort_keys_recursive(v)))`. -/
def sortKeysFields : List (String × Json) → List (String × Json)
  | [] => []
  | (k, v) :: fs => (k, sort_keys_recursive v) :: sortKeysFields fs

end

/-- `canonicalize_schema` (`canonicalize.rs`). -/
def canonicalize_schema (schema : Json) : String :=
  renderJson (sort_keys_recursive schema)

/-- `hash_canonical` (`canonicalize.rs`), with the SHA-256 primitive passed
explicitly. -/
def hash_canonical (sha256 : List Nat → List Nat) (canonical : String) : List Nat :=
  sha256 (utf8Bytes canonical)

/-- `canonicalize_and_hash` (`canonicalize.rs`). -/
def canonicalize_and_hash (sha256 : List Nat → List Nat) (schema : Json) : List Nat :=
  hash_canonical sha256 (canonicalize_schema schema)

/-! ## Structural equality up to object key order -/

mutual

/-- Structural equality of JSON values up to object key order: identical
scalars, pointwise-equivalent arrays, and objects whose field collections
agree as sets of key/value pairs (a permutation of pointwise-equivalent
fields). -/
def JPerm : Json → Json → Prop
  | .null, .null => True
  | .bool x, .bool y => x = y
  | .num x, .num y => x = y
  | .str x, .str y => x = y
  | .arr xs, .arr ys => JPermArr xs ys
  | .obj fs, .obj gs => ∃ hs, JPermFields fs hs ∧ List.Perm hs gs
  | _, _ => False

/-- Pointwise `JPerm` on lists. -/
def JPermArr : List Json → List Json → Prop
  | [], [] => True
  | x :: xs, y :: ys => JPerm x y ∧ JPermArr xs ys
  | _, _ => False

/-- Pointwise `JPerm` on field lists: equal keys in equal positions,
equivalent values. -/
def JPermFields : List (String × Json) → List (String × Json) → Prop
  | [], [] => True
  | (k, v) :: fs, (k2, w) :: gs => k = k2 ∧ JPerm v w ∧ JPermFields fs gs
  | _, _ => False

end

mutual

/-- Well-formedness of a `serde_json::Value`: object keys are duplicate-free
at every depth (guaranteed by `serde_json::Map`). -/
def jsonWF : Json → Bool
  | .null => true
  | .bool _ => true
  | .num _ => true
  | .str _ => true
  | .arr xs => jsonWFArr xs
  | .obj fs => decide ((fs.map Prod.fst).Nodup) && jsonWFFields fs

/-- `jsonWF` on each array element. -/
def jsonWFArr : List Json → Bool
  | [] => true
  | x :: xs => jsonWF x && jsonWFArr xs

/-- `jsonWF` on each field value. -/
def jsonWFFields : List (String × Json) → Bool
  | [] => true
  | (_, v) :: fs => jsonWF v && jsonWFFields fs

end

mutual

/-- Every object in the value has its keys in strictly ascending
lexicographic order. -/
def allObjKeysSorted : Json → Bool
  | .null => true
  | .bool _ => true
  | .num _ => true
  | .str _ => true
  | .arr xs => allKeysSortedArr xs
  | .obj fs => decide (KeysSorted fs) && allKeysSortedFields fs

/-- `allObjKeysSorted` on each array element. -/
def allKeysSortedArr : List Json → Bool
  | [] => true
  | x :: xs => allObjKeysSorted x && allKeysSortedArr xs

/-- `allObjKeysSorted` on each field value. -/
def allKeysSortedFields : List (String × Json) → Bool
  | [] => true
  | (_, v) :: fs => allObjKeysSorted v && allKeysSortedFields fs

end

theorem jperm_null_right {b : Json} (h : JPerm .null b) : b = .null := by
  cases b <;> simp_all [JPerm]

theorem jperm_bool_right {x : Bool} {b : Json} (h : JPerm (.bool x) b) : b = .bool x := by
  cases b <;> simp_all [JPerm]

theorem jperm_num_right {x : String} {b : Json} (h : JPerm (.num x) b) : b = .num x := by
  cases b <;> simp_all [JPerm]

theorem jperm_str_right {x : String} {b : Json} (h : JPerm (.str x) b) : b = .str x := by
  cases b <;> simp_all [JPerm]

theorem jperm_arr_right {xs : List Json} {b : Json} (h : JPerm (.arr xs) b) :
    ∃ ys, b = .arr ys ∧ JPermArr xs ys := by
  cases b <;> simp_all [JPerm]

theorem jperm_obj_right {fs : List (String × Json)} {b : Json} (h : JPerm (.obj fs) b) :
    ∃ gs, b = .obj gs ∧ ∃ hs, JPermFields fs hs ∧ List.Perm hs gs := by
  cases b <;> simp_all [JPerm]

theorem sortKeysFields_eq_map : ∀ fs : List (String × Json),
    sortKeysFields fs = fs.map (fun p => (p.1, sort_keys_recursive p.2))
  | [] => rfl
  | (k, v) :: fs => by
    simp only [sortKeysFields, List.map_cons]
    rw [sortKeysFields_eq_map fs]

theorem sortKeysFields_keys (fs : List (String × Json)) :
    (sortKeysFields fs).map Prod.fst = fs.map Prod.fst := by
  rw [sortKeysFields_eq_map, List.map_map]
  rfl

theorem jpermFields_keys : ∀ {fs hs : List (String × Json)}, JPermFields fs hs →
    fs.map Prod.fst = hs.map Prod.fst := by
  intro fs
  induction fs with
  | nil =>
    intro hs h
    cases hs with
    | nil => rfl
    | cons q hs => exact absurd h (by simp [JPermFields])
  | cons p fs ih =>
    obtain ⟨k, v⟩ := p
    intro hs h
    cases hs with
    | nil => exact absurd h (by simp [JPermFields])
    | cons q hs =>
      obtain ⟨k2, w⟩ := q
      have h' : k = k2 ∧ JPerm v w ∧ JPermFields fs hs := by simpa [JPermFields] using h
      simp only [List.map_cons]
      rw [ih h'.2.2, h'.1]

theorem allKeysSortedFields_iff : ∀ {l : List (String × Json)},
    allKeysSortedFields l = true ↔ ∀ q ∈ l, allObjKeysSorted q.2 = true := by
  intro l
  induction l with
  | nil => simp [allKeysSortedFields]
  | cons p rest ih =>
    obtain ⟨k, v⟩ := p
    simp only [allKeysSortedFields, Bool.and_eq_true, ih]
    constructor
    · rintro ⟨h1, h2⟩ q hq
      rcases List.mem_cons.mp hq with h | hq'
      · rw [h]
        exact h1
      · exact h2 q hq'
    · intro hall
      exact ⟨hall (k, v) (List.mem_cons_self _ _), fun q hq => hall q (List.mem_cons_of_mem _ hq)⟩

mutual

/-- Recursive key sorting maps structurally equal values (up to key order) to
the same value, provided object keys are duplicate-free. -/
theorem sortKeys_eq_of_jperm : ∀ (a b : Json), JPerm a b → jsonWF a = true →
    sort_keys_recursive a = sort_keys_recursive b
  | .null, b, h, _ => by rw [jperm_null_right h]
  | .bool x, b, h, _ => by rw [jperm_bool_right h]
  | .num x, b, h, _ => by rw [jperm_num_right h]
  | .str x, b, h, _ => by rw [jperm_str_right h]
  | .arr xs, b, h, hwf => by
    obtain ⟨ys, rfl, hl⟩ := jperm_arr_right h
    have hwf' : jsonWFArr xs = true := by simpa [jsonWF] using hwf
    simp only [sort_keys_recursive]
    rw [sortKeysArr_eq_of_jperm xs ys hl hwf']
  | .obj fs, b, h, hwf => by
    obtain ⟨gs, rfl, hs, hfields, hperm⟩ := jperm_obj_right h
    have hwf' : (fs.map Prod.fst).Nodup ∧ jsonWFFields fs = true := by
      simpa [jsonWF, Bool.and_eq_true, decide_eq_true_eq] using hwf
    simp only [sort_keys_recursive]
    congr 1
    rw [sortKeysFields_eq_of_jperm fs hs hfields hwf'.2]
    apply btBuild_perm_eq
    · rw [sortKeysFields_eq_map, sortKeysFields_eq_map]
      exact hperm.map _
    · rw [sortKeysFields_keys, ← jpermFields_keys hfields]
      exact hwf'.1

/-- Companion of `sortKeys_eq_of_jperm` for array elements. -/
theorem sortKeysArr_eq_of_jperm : ∀ (xs ys : List Json), JPermArr xs ys →
    jsonWFArr xs = true → sortKeysArr xs = sortKeysArr ys
  | [], ys, h, _ => by
    cases ys with
    | nil => rfl
    | cons y ys => exact absurd h (by simp [JPermArr])
  | x :: xs, ys, h, hwf => by
    cases ys with
    | nil => exact absurd h (by simp [JPermArr])
    | cons y ys =>
      have h' : JPerm x y ∧ JPermArr xs ys := by simpa [JPermArr] using h
      have hwf' : jsonWF x = true ∧ jsonWFArr xs = true := by
        simpa [jsonWFArr, Bool.and_eq_true] using hwf
      simp only [sortKeysArr]
      rw [sortKeys_eq_of_jperm x y h'.1 hwf'.1, sortKeysArr_eq_of_jperm xs ys h'.2 hwf'.2]

/-- Companion of `sortKeys_eq_of_jperm` for pointwise-equivalent fields. -/
theorem sortKeysFields_eq_of_jperm : ∀ (fs hs : List (String × Json)), JPermFields fs hs →
    jsonWFFields fs = true → sortKeysFields fs = sortKeysFields hs
  | [], hs, h, _ => by
    cases hs with
    | nil => rfl
    | cons q hs => exact absurd h (by simp [JPermFields])
  | (k, v) :: fs, hs, h, hwf => by
    cases hs with
    | nil => exact absurd h (by simp [JPermFields])
    | cons q hs =>
      obtain ⟨k2, w⟩ := q
      have h' : k = k2 ∧ JPerm v w ∧ JPermFields fs hs := by simpa [JPermFields] using h
      have hwf' : jsonWF v = true ∧ jsonWFFields fs = true := by
        simpa [jsonWFFields, Bool.and_eq_true] using hwf
      simp only [sortKeysFields]
      rw [sortKeys_eq_of_jperm v w h'.2.1 hwf'.1,
        sortKeysFields_eq_of_jperm fs hs h'.2.2 hwf'.2, h'.1]

end

mutual

/-- The output of `sort_keys_recursive` has every object's keys in strictly
ascending lexicographic order. -/
theorem allObjKeysSorted_sortKeys : ∀ v : Json,
    allObjKeysSorted (sort_keys_recursive v) = true
  | .null => rfl
  | .bool _ => rfl
  | .num _ => rfl
  | .str _ => rfl
  | .arr xs => by
    simp only [sort_keys_recursive, allObjKeysSorted]
    exact allKeysSortedArr_sortKeys xs
  | .obj fs => by
    simp only [sort_keys_recursive, allObjKeysSorted, Bool.and_eq_true, decide_eq_true_eq]
    refine ⟨btBuild_keysSorted _, ?_⟩
    rw [allKeysSortedFields_iff]
    intro q hq
    exact allKeysSortedFields_sortKeys fs q (btBuild_subset hq)

/-- Companion of `allObjKeysSorted_sortKeys` for array elements. -/
theorem allKeysSortedArr_sortKeys : ∀ xs : List Json,
    allKeysSortedArr (sortKeysArr xs) = true
  | [] => rfl
  | x :: xs => by
    simp only [sortKeysArr, allKeysSortedArr, Bool.and_eq_true]
    exact ⟨allObjKeysSorted_sortKeys x, allKeysSortedArr_sortKeys xs⟩

/-- Companion of `allObjKeysSorted_sortKeys` for field values. -/
theorem allKeysSortedFields_sortKeys : ∀ (fs : List (String × Json)),
    ∀ q ∈ sortKeysFields fs, allObjKeysSorted q.2 = true
  | [], q, hq => by simp [sortKeysFields] at hq
  | (k, v) :: fs, q, hq => by
    rcases List.mem_cons.mp hq with h | hq'
    · rw [h]
      exact allObjKeysSorted_sortKeys v
    · exact allKeysSortedFields_sortKeys fs q hq'

end

/-- C4: canonicalization invariance under object-key reordering. For any two
structurally equal JSON values (same key/value sets in objects at every depth,
identical array order; keys duplicate-free as `serde_json::Map` guarantees),
`canonicalize_schema` produces byte-identical strings, and the emitted value
has every object's keys in ascending lexicographic order. -/
theorem C4_canonicalize_key_order_invariance (a b : Json)
    (hwf : jsonWF a = true) (h : JPerm a b) :
    canonicalize_schema a = canonicalize_schema b ∧
    allObjKeysSorted (sort_keys_recursive a) = true := by
  refine ⟨?_, allObjKeysSorted_sortKeys a⟩
  unfold canonicalize_schema
  rw [sortKeys_eq_of_jperm a b h hwf]

/-- Concrete instantiation of `C4_canonicalize_key_order_invariance` on the
spec's schema example with its object keys permuted at two depths. -/
theorem C4_canonicalize_witness :
    canonicalize_schema
        (.obj [("name", .str "calculate_sum"),
               ("parameters", .obj [("b", .str "integer"), ("a", .str "integer")])]) =
      canonicalize_schema
        (.obj [("parameters", .obj [("a", .str "integer"), ("b", .str "integer")]),
               ("name", .str "calculate_sum")]) ∧
    allObjKeysSorted (sort_keys_recursive
        (.obj [("name", .str "calculate_sum"),
               ("parameters", .obj [("b", .str "integer"), ("a", .str "integer")])])) = true := by
  have hinner : JPerm (.obj [("b", .str "integer"), ("a", .str "integer")])
      (.obj [("a", .str "integer"), ("b", .str "integer")]) := by
    simp only [JPerm]
    refine ⟨[("b", .str "integer"), ("a", .str "integer")], ?_, ?_⟩
    · simp [JPermFields, JPerm]
    · exact List.Perm.swap _ _ _
  have houter : JPerm
      (.obj [("name", .str "calculate_sum"),
             ("parameters", .obj [("b", .str "integer"), ("a", .str "integer")])])
      (.obj [("parameters", .obj [("a", .str "integer"), ("b", .str "integer")]),
             ("name", .str "calculate_sum")]) := by
    simp only [JPerm]
    refine ⟨[("name", .str "calculate_sum"),
             ("parameters", .obj [("a", .str "integer"), ("b", .str "integer")])], ?_, ?_⟩
    · simp only [JPermFields, JPerm, true_and, and_true]
      exact ⟨[("b", Json.str "integer"), ("a", Json.str "integer")],
        by simp [JPermFields, JPerm], List.Perm.swap _ _ _⟩
    · exact List.Perm.swap _ _ _
  exact C4_canonicalize_key_order_invariance _ _ (by decide) houter

/-! ## Skill canonicalization (`src/rust/src/skill.rs`) -/

/-- A directory entry as observed by `walk_sorted` through
`fs::symlink_metadata`: a regular file with its byte contents, a
subdirectory, or a symbolic link (never followed, so it carries no
structure). -/
inductive Entry where
  | file (name : String) (content : List Nat)
  | dir (name : String) (entries : List Entry)
  | symlink (name : String)

/-- `DirEntry::file_name`. -/
def entryName : Entry → String
  | .file n _ => n
  | .dir n _ => n
  | .symlink n => n

/-- `entries.sort_by_key(|e| e.file_name())`: stable ascending sort by
file name in byte order. -/
def sortByName (es : List Entry) : List Entry :=
  es.insertionSort (fun a b => strLt (entryName b) (entryName a) = false)

/-- The traversal order of `walk_sorted`: at each level visit entries in
sorted name order, skipping symlinks, recursing into directories and
collecting every regular file except `.schemapin.sig`, keyed by its
path components relative to the root. -/
def collectDir (pre : List String) (es : List Entry) : List (List String × List Nat) :=
  (sortByName es).attach.flatMap (fun x =>
    match x with
    | ⟨Entry.symlink _, _⟩ => []
    | ⟨Entry.dir n children, _⟩ => collectDir (pre ++ [n]) children
    | ⟨Entry.file n c, _⟩ =>
      if n = ".schemapin.sig" then [] else [(pre ++ [n], c)])
termination_by sizeOf es
decreasing_by
  rename_i h
  have hmem : Entry.dir n children ∈ es :=
    ((List.perm_insertionSort _ es).mem_iff).mp h
  have := List.sizeOf_lt_of_mem hmem
  simp only [Entry.dir.sizeOf_spec] at this
  omega

/-- Forward-slash join of relative path components
(`components.join("/")`). -/
def relPath : List String → String
  | [] => ""
  | [c] => c
  | c :: rest => c ++ "/" ++ relPath rest

/-- Two lowercase hex digits of a byte. -/
def hexOfByte (n : Nat) : String :=
  String.mk [hexDigit (n / 16 % 16), hexDigit (n % 16)]

/-- `hex::encode`: lowercase hex of a byte string. -/
def hexOfBytes (bs : List Nat) : String :=
  String.join (bs.map hexOfByte)

/-- The manifest value recorded for one file: `"sha256:" +
hex(SHA-256(relative_path_utf8 || file_bytes))`. -/
def digestPair (sha256 : List Nat → List Nat) (pc : List String × List Nat) :
    String × String :=
  (relPath pc.1,
   "sha256:" ++ hexOfBytes (sha256 (utf8Bytes (relPath pc.1) ++ pc.2)))

/-- `walk_sorted` (`skill.rs`): the `BTreeMap` manifest accumulated over the
sorted traversal. -/
def walk_sorted (sha256 : List Nat → List Nat) (tree : List Entry) :
    List (String × String) :=
  (collectDir [] tree).foldl
    (fun m pc => btInsert (digestPair sha256 pc).1 (digestPair sha256 pc).2 m) []

/-- `v.strip_prefix("sha256:").unwrap_or(v)`, on the character list (the
stripped tag is pure ASCII, so char-level and byte-level agree). -/
def stripShaTag (v : String) : String :=
  if v.data.take 7 = "sha256:".data then ⟨v.data.drop 7⟩ else v

/-- `canonicalize_skill` (`skill.rs`): build the manifest, fail when it is
empty, otherwise hash the concatenation of the manifest values with their
`"sha256:"` prefixes stripped. -/
def canonicalize_skill (sha256 : List Nat → List Nat) (tree : List Entry) :
    Except Err (List Nat × List (String × String)) :=
  let manifest := walk_sorted sha256 tree
  if manifest.isEmpty then
    .error (.io "skill directory contains no files")
  else
    let joined := String.join (manifest.map (fun kv => stripShaTag kv.2))
    .ok (sha256 (utf8Bytes joined), manifest)

theorem stripShaTag_digest (s : String) : stripShaTag ("sha256:" ++ s) = s := by
  unfold stripShaTag
  have hdata : ("sha256:" ++ s).data = "sha256:".data ++ s.data := by
    simp [String.data_append]
  rw [hdata]
  have htake : ("sha256:".data ++ s.data).take 7 = "sha256:".data :=
    List.take_left' (by rfl)
  rw [if_pos htake]
  have hdrop : ("sha256:".data ++ s.data).drop 7 = s.data :=
    List.drop_left' (by rfl)
  rw [hdrop]

/-- `walk_sorted` is the `BTreeMap` built from the per-file digests of the
traversal. -/
theorem walk_sorted_eq_btBuild (sha256 : List Nat → List Nat) (tree : List Entry) :
    walk_sorted sha256 tree = btBuild ((collectDir [] tree).map (digestPair sha256)) := by
  unfold walk_sorted btBuild
  rw [List.foldl_map]

theorem flatMap_attach_val {α β : Type} (l : List α) (f : α → List β) :
    l.attach.flatMap (fun x => f x.val) = l.flatMap f := by
  induction l with
  | nil => rfl
  | cons a as ih =>
    simp only [List.attach_cons, List.flatMap_cons, List.flatMap_map]
    rw [← ih]

/-- The defining equation of `collectDir` without the termination bookkeeping. -/
theorem collectDir_unfold (pre : List String) (es : List Entry) :
    collectDir pre es = (sortByName es).flatMap (fun e =>
      match e with
      | Entry.symlink _ => []
      | Entry.dir n children => collectDir (pre ++ [n]) children
      | Entry.file n c =>
        if n = ".schemapin.sig" then [] else [(pre ++ [n], c)]) := by
  rw [collectDir]
  have hf : (fun x : {x // x ∈ sortByName es} =>
      match x with
      | ⟨Entry.symlink _, _⟩ => ([] : List (List String × List Nat))
      | ⟨Entry.dir n children, _⟩ => collectDir (pre ++ [n]) children
      | ⟨Entry.file n c, _⟩ =>
        if n = ".schemapin.sig" then [] else [(pre ++ [n], c)]) =
      (fun x : {x // x ∈ sortByName es} =>
        (fun e => match e with
        | Entry.symlink _ => ([] : List (List String × List Nat))
        | Entry.dir n children => collectDir (pre ++ [n]) children
        | Entry.file n c =>
          if n = ".schemapin.sig" then [] else [(pre ++ [n], c)]) x.val) := by
    funext x
    obtain ⟨e, he⟩ := x
    cases e <;> rfl
  rw [hf]
  exact flatMap_attach_val (sortByName es) (fun e =>
    match e with
    | Entry.symlink _ => ([] : List (List String × List Nat))
    | Entry.dir n children => collectDir (pre ++ [n]) children
    | Entry.file n c =>
      if n = ".schemapin.sig" then [] else [(pre ++ [n], c)])

/-- A toy stand-in hash used only to instantiate theorems at concrete inputs. -/
def toySha (bs : List Nat) : List Nat := [bs.length % 256]

/-- A small concrete skill tree: a top-level file, a nested file, a symlink
and a stray `.schemapin.sig`. -/
def toyTree : List Entry :=
  [Entry.file "b.txt" [66], Entry.dir "sub" [Entry.file "a.txt" [65]],
   Entry.symlink "link0", Entry.file ".schemapin.sig" [0]]

theorem collectDir_toyTree :
    collectDir [] toyTree = [(["b.txt"], [66]), (["sub", "a.txt"], [65])] := by
  rw [show collectDir [] toyTree = collectDir [] toyTree from rfl]
  rw [collectDir_unfold]
  rw [show sortByName toyTree =
    [Entry.file ".schemapin.sig" [0], Entry.file "b.txt" [66],
     Entry.symlink "link0", Entry.dir "sub" [Entry.file "a.txt" [65]]] from rfl]
  simp only [List.flatMap_cons, List.flatMap_nil]
  rw [collectDir_unfold]
  rfl

theorem canonicalize_skill_toyTree :
    canonicalize_skill toySha toyTree =
      .ok ([4], [("b.txt", "sha256:06"), ("sub/a.txt", "sha256:0a")]) := by
  unfold canonicalize_skill walk_sorted
  rw [collectDir_toyTree]
  rfl

/-- C5: the manifest returned by `canonicalize_skill` maps each collected
regular file's forward-slash relative path to `"sha256:" +
hex(SHA-256(relative_path_utf8 || file_bytes))`, is sorted by key, and the
root hash is SHA-256 of the concatenation, in manifest key order, of the
manifest values with their `"sha256:"` tags stripped (i.e. the hex digests).
Completeness of the manifest holds whenever the collected relative paths are
duplicate-free, which is the case for any real directory tree. -/
theorem C5_canonicalize_skill_manifest (sha256 : List Nat → List Nat) (tree : List Entry)
    (root : List Nat) (m : List (String × String))
    (h : canonicalize_skill sha256 tree = .ok (root, m)) :
    KeysSorted m ∧
    (∀ kv ∈ m, ∃ comps content,
      (comps, content) ∈ collectDir [] tree ∧
      kv.1 = relPath comps ∧
      kv.2 = "sha256:" ++ hexOfBytes (sha256 (utf8Bytes kv.1 ++ content)) ∧
      stripShaTag kv.2 = hexOfBytes (sha256 (utf8Bytes kv.1 ++ content))) ∧
    (((collectDir [] tree).map (fun pc => relPath pc.1)).Nodup →
      ∀ pc ∈ collectDir [] tree,
        (relPath pc.1,
         "sha256:" ++ hexOfBytes (sha256 (utf8Bytes (relPath pc.1) ++ pc.2))) ∈ m) ∧
    root = sha256 (utf8Bytes (String.join (m.map (fun kv => stripShaTag kv.2)))) := by
  unfold canonicalize_skill at h
  by_cases he : (walk_sorted sha256 tree).isEmpty
  · rw [if_pos he] at h
    exact absurd h (by simp)
  · rw [if_neg he] at h
    simp only [Except.ok.injEq, Prod.mk.injEq] at h
    obtain ⟨hroot, hm⟩ := h
    subst hm
    refine ⟨?_, ?_, ?_, ?_⟩
    · rw [walk_sorted_eq_btBuild]
      exact btBuild_keysSorted _
    · intro kv hkv
      rw [walk_sorted_eq_btBuild] at hkv
      have hkv' := btBuild_subset hkv
      rcases List.mem_map.mp hkv' with ⟨pc, hpc, hdig⟩
      refine ⟨pc.1, pc.2, hpc, ?_, ?_, ?_⟩
      · rw [← hdig]
        simp [digestPair]
      · rw [← hdig]
        simp [digestPair]
      · rw [← hdig]
        simp only [digestPair]
        exact stripShaTag_digest _
    · intro hnd pc hpc
      rw [walk_sorted_eq_btBuild]
      have hnd' : (((collectDir [] tree).map (digestPair sha256)).map Prod.fst).Nodup := by
        rw [List.map_map]
        exact hnd
      rw [btBuild_mem_iff hnd']
      exact List.mem_map_of_mem (digestPair sha256) hpc
    · exact hroot.symm

/-- Concrete instantiation of `C5_canonicalize_skill_manifest` on the toy
tree with the toy hash. -/
theorem C5_canonicalize_skill_witness :
    KeysSorted [("b.txt", "sha256:06"), ("sub/a.txt", "sha256:0a")] ∧
    (∀ kv ∈ [("b.txt", "sha256:06"), ("sub/a.txt", "sha256:0a")], ∃ comps content,
      (comps, content) ∈ collectDir [] toyTree ∧
      kv.1 = relPath comps ∧
      kv.2 = "sha256:" ++ hexOfBytes (toySha (utf8Bytes kv.1 ++ content)) ∧
      stripShaTag kv.2 = hexOfBytes (toySha (utf8Bytes kv.1 ++ content))) ∧
    (((collectDir [] toyTree).map (fun pc => relPath pc.1)).Nodup →
      ∀ pc ∈ collectDir [] toyTree,
        (relPath pc.1,
         "sha256:" ++ hexOfBytes (toySha (utf8Bytes (relPath pc.1) ++ pc.2))) ∈
          [("b.txt", "sha256:06"), ("sub/a.txt", "sha256:0a")]) ∧
    [4] = toySha
      (utf8Bytes (String.join
        ([("b.txt", "sha256:06"), ("sub/a.txt", "sha256:0a")].map
          (fun kv => stripShaTag kv.2)))) :=
  C5_canonicalize_skill_manifest toySha toyTree
    [4] [("b.txt", "sha256:06"), ("sub/a.txt", "sha256:0a")]
    canonicalize_skill_toyTree

/-! ## Path resolution: the spec-side reading of the traversal (for C6) -/

/-- Resolve a component path against a tree, descending only through
directories; returns the contents of the regular file the path names, and
`none` for symlinks, directories, or missing entries. -/
def resolveFile : List Entry → List String → Option (List Nat)
  | _, [] => none
  | es, n :: rest =>
    match es.find? (fun e => entryName e == n) with
    | some (Entry.file _ c) => if rest.isEmpty then some c else none
    | some (Entry.dir _ children) => if rest.isEmpty then none else resolveFile children rest
    | _ => none

/-- Well-formedness of a real directory tree: entry names are unique within
each directory, recursively. -/
def treeWF (es : List Entry) : Bool :=
  decide ((es.map entryName).Nodup) &&
  es.attach.all (fun x =>
    match x with
    | ⟨Entry.dir _ children, _⟩ => treeWF children
    | _ => true)
termination_by sizeOf es
decreasing_by
  rename_i h
  have := List.sizeOf_lt_of_mem h
  simp only [Entry.dir.sizeOf_spec] at this
  omega

theorem all_attach_val {α : Type} (l : List α) (f : α → Bool) :
    (l.attach.all (fun x => f x.val)) = l.all f := by
  rw [Bool.eq_iff_iff]
  simp only [List.all_eq_true, List.mem_attach, true_implies, Subtype.forall]

/-- The defining equation of `treeWF` without the termination bookkeeping. -/
theorem treeWF_unfold (es : List Entry) :
    treeWF es = (decide ((es.map entryName).Nodup) &&
      es.all (fun e =>
        match e with
        | Entry.dir _ children => treeWF children
        | _ => true)) := by
  rw [treeWF]
  have hf : (fun x : {x // x ∈ es} =>
      match x with
      | ⟨Entry.dir _ children, _⟩ => treeWF children
      | _ => true) =
      (fun x : {x // x ∈ es} =>
        (fun e => match e with
        | Entry.dir _ children => treeWF children
        | _ => true) x.val) := by
    funext x
    obtain ⟨e, he⟩ := x
    cases e <;> rfl
  rw [hf]
  rw [all_attach_val es (fun e =>
    match e with
    | Entry.dir _ children => treeWF children
    | _ => true)]

theorem treeWF_nodup {es : List Entry} (h : treeWF es = true) :
    (es.map entryName).Nodup := by
  rw [treeWF_unfold, Bool.and_eq_true, decide_eq_true_eq] at h
  exact h.1

theorem treeWF_children {es : List Entry} (h : treeWF es = true)
    {n : String} {children : List Entry} (hmem : Entry.dir n children ∈ es) :
    treeWF children = true := by
  rw [treeWF_unfold, Bool.and_eq_true] at h
  have := (List.all_eq_true.mp h.2) _ hmem
  simpa using this

/-- In a directory with unique names, searching for an element's name finds
that element. -/
theorem find?_name_of_nodup : ∀ {es : List Entry}, (es.map entryName).Nodup →
    ∀ {e : Entry}, e ∈ es → es.find? (fun x => entryName x == entryName e) = some e := by
  intro es
  induction es with
  | nil => intro _ e he; simp at he
  | cons a as ih =>
    intro hnd e he
    have hmap : (entryName a :: as.map entryName).Nodup := by simpa using hnd
    have hhead : entryName a ∉ as.map entryName := (List.nodup_cons.mp hmap).1
    rw [List.find?_cons]
    by_cases hname : entryName a == entryName e
    · rcases List.mem_cons.mp he with rfl | he'
      · simp
      · exfalso
        apply hhead
        have : entryName a = entryName e := by simpa using hname
        rw [this]
        exact List.mem_map_of_mem entryName he'
    · rcases List.mem_cons.mp he with rfl | he'
      · simp at hname
      · simp only [hname]
        exact ih (List.nodup_cons.mp hmap).2 he'

/-- Every pair collected by `collectDir` is keyed under the prefix by a
non-empty component suffix whose last component is not `.schemapin.sig`. -/
theorem collectDir_comps (es : List Entry) (pre : List String) :
    ∀ pc ∈ collectDir pre es, ∃ suffix,
      pc.1 = pre ++ suffix ∧ suffix ≠ [] ∧
      suffix.getLast? ≠ some ".schemapin.sig" := by
  rw [collectDir_unfold]
  intro pc hpc
  rcases List.mem_flatMap.mp hpc with ⟨e, he, hpe⟩
  have hees : e ∈ es := ((List.perm_insertionSort _ es).mem_iff).mp he
  match e with
  | Entry.symlink _ =>
    have hpe' : pc ∈ ([] : List (List String × List Nat)) := hpe
    simp at hpe'
  | Entry.file n c =>
    have hpe' : pc ∈ (if n = ".schemapin.sig" then []
      else [(pre ++ [n], c)] : List (List String × List Nat)) := hpe
    by_cases hn : n = ".schemapin.sig"
    · rw [if_pos hn] at hpe'
      simp at hpe'
    · rw [if_neg hn] at hpe'
      rw [List.mem_singleton] at hpe'
      subst hpe'
      exact ⟨[n], rfl, by simp, by simpa using hn⟩
  | Entry.dir n children =>
    have hpe' : pc ∈ collectDir (pre ++ [n]) children := hpe
    have hsize : sizeOf children < sizeOf es := by
      have := List.sizeOf_lt_of_mem hees
      simp only [Entry.dir.sizeOf_spec] at this
      omega
    obtain ⟨suffix, hcomps, hne, hlast⟩ :=
      collectDir_comps children (pre ++ [n]) pc hpe'
    refine ⟨n :: suffix, ?_, by simp, ?_⟩
    · rw [hcomps, List.append_assoc]
      rfl
    · cases suffix with
      | nil => exact absurd rfl hne
      | cons s ss => rw [List.getLast?_cons_cons]; exact hlast
termination_by sizeOf es

/-- Every pair collected by `collectDir` from a well-formed tree resolves,
through directories only, to a regular file with the collected contents. -/
theorem collectDir_resolves (es : List Entry) (pre : List String)
    (hwf : treeWF es = true) :
    ∀ pc ∈ collectDir pre es, ∃ suffix,
      pc.1 = pre ++ suffix ∧ resolveFile es suffix = some pc.2 := by
  rw [collectDir_unfold]
  intro pc hpc
  rcases List.mem_flatMap.mp hpc with ⟨e, he, hpe⟩
  have hees : e ∈ es := ((List.perm_insertionSort _ es).mem_iff).mp he
  match e with
  | Entry.symlink _ =>
    have hpe' : pc ∈ ([] : List (List String × List Nat)) := hpe
    simp at hpe'
  | Entry.file n c =>
    have hpe' : pc ∈ (if n = ".schemapin.sig" then []
      else [(pre ++ [n], c)] : List (List String × List Nat)) := hpe
    by_cases hn : n = ".schemapin.sig"
    · rw [if_pos hn] at hpe'
      simp at hpe'
    · rw [if_neg hn] at hpe'
      rw [List.mem_singleton] at hpe'
      subst hpe'
      refine ⟨[n], rfl, ?_⟩
      unfold resolveFile
      rw [show (fun x => entryName x == n) = (fun x => entryName x == entryName (Entry.file n c))
        from rfl]
      rw [find?_name_of_nodup (treeWF_nodup hwf) hees]
      rfl
  | Entry.dir n children =>
    have hpe' : pc ∈ collectDir (pre ++ [n]) children := hpe
    have hsize : sizeOf children < sizeOf es := by
      have := List.sizeOf_lt_of_mem hees
      simp only [Entry.dir.sizeOf_spec] at this
      omega
    obtain ⟨suffix, hcomps, hres⟩ :=
      collectDir_resolves children (pre ++ [n]) (treeWF_children hwf hees) pc hpe'
    have hne : suffix ≠ [] := by
      intro habs
      rw [habs] at hres
      simp [resolveFile] at hres
    refine ⟨n :: suffix, ?_, ?_⟩
    · rw [hcomps, List.append_assoc]
      rfl
    · unfold resolveFile
      rw [show (fun x => entryName x == n) =
        (fun x => entryName x == entryName (Entry.dir n children)) from rfl]
      rw [find?_name_of_nodup (treeWF_nodup hwf) hees]
      simp only
      rw [if_neg (by simpa using hne)]
      exact hres
termination_by sizeOf es

/-- A path of two or more components renders with a slash. -/
theorem slash_mem_relPath (x y : String) (rest : List String) :
    '/' ∈ (relPath (x :: y :: rest)).data := by
  simp [relPath, String.data_append]

theorem treeWF_toyTree : treeWF toyTree = true := by
  unfold toyTree
  rw [treeWF_unfold]
  simp only [List.all_cons, List.all_nil]
  rw [treeWF_unfold]
  rfl

/-- C6: the manifest of `canonicalize_skill` never contains the key
`.schemapin.sig`, and (for a well-formed tree) every manifest key names a
regular file reached through directories only — symbolic links are neither
followed nor recorded at any depth, and no collected path ends in
`.schemapin.sig`. -/
theorem C6_skip_invariants (sha256 : List Nat → List Nat) (tree : List Entry)
    (root : List Nat) (m : List (String × String))
    (h : canonicalize_skill sha256 tree = .ok (root, m)) :
    (∀ v, (".schemapin.sig", v) ∉ m) ∧
    (treeWF tree = true →
      ∀ kv ∈ m, ∃ comps content, kv.1 = relPath comps ∧
        comps.getLast? ≠ some ".schemapin.sig" ∧
        resolveFile tree comps = some content) := by
  unfold canonicalize_skill at h
  by_cases he : (walk_sorted sha256 tree).isEmpty
  · rw [if_pos he] at h
    exact absurd h (by simp)
  · rw [if_neg he] at h
    simp only [Except.ok.injEq, Prod.mk.injEq] at h
    obtain ⟨_, hm⟩ := h
    subst hm
    constructor
    · intro v hv
      rw [walk_sorted_eq_btBuild] at hv
      have hv' := btBuild_subset hv
      rcases List.mem_map.mp hv' with ⟨pc, hpc, hdig⟩
      obtain ⟨suffix, hcomps, hne, hlast⟩ := collectDir_comps tree [] pc hpc
      rw [List.nil_append] at hcomps
      have hkey : relPath pc.1 = ".schemapin.sig" := by
        have := congrArg Prod.fst hdig
        simpa [digestPair] using this
      rw [hcomps] at hkey
      match suffix, hne with
      | [x], _ =>
        have hx : x = ".schemapin.sig" := by simpa [relPath] using hkey
        rw [hx] at hlast
        simp at hlast
      | x :: y :: rest, _ =>
        have hslash : '/' ∈ (relPath (x :: y :: rest)).data :=
          slash_mem_relPath x y rest
        rw [hkey] at hslash
        exact absurd hslash (by decide)
    · intro hwf kv hkv
      rw [walk_sorted_eq_btBuild] at hkv
      have hkv' := btBuild_subset hkv
      rcases List.mem_map.mp hkv' with ⟨pc, hpc, hdig⟩
      obtain ⟨suffix, hc1, hne, hlast⟩ := collectDir_comps tree [] pc hpc
      obtain ⟨suffix2, hc2, hres⟩ := collectDir_resolves tree [] hwf pc hpc
      rw [List.nil_append] at hc1 hc2
      refine ⟨pc.1, pc.2, ?_, ?_, ?_⟩
      · have := congrArg Prod.fst hdig
        simpa [digestPair] using this.symm
      · rw [hc1]
        exact hlast
      · rw [hc2]
        exact hres

/-- Concrete instantiation of `C6_skip_invariants` on the toy tree, whose
manifest omits both the symlink and the stray `.schemapin.sig`. -/
theorem C6_skip_invariants_witness :
    (∀ v, (".schemapin.sig", v) ∉
      [("b.txt", "sha256:06"), ("sub/a.txt", "sha256:0a")]) ∧
    (∀ kv ∈ [("b.txt", "sha256:06"), ("sub/a.txt", "sha256:0a")],
      ∃ comps content, kv.1 = relPath comps ∧
        comps.getLast? ≠ some ".schemapin.sig" ∧
        resolveFile toyTree comps = some content) := by
  have h := C6_skip_invariants toySha toyTree [4]
    [("b.txt", "sha256:06"), ("sub/a.txt", "sha256:0a")] canonicalize_skill_toyTree
  exact ⟨h.1, h.2 treeWF_toyTree⟩

/-! ## Discovery and revocation documents
(`src/rust/src/types/discovery.rs`, `types/revocation.rs`, `discovery.rs`,
`revocation.rs`) -/

/-- Response from the `.well-known/schemapin.json` endpoint. -/
structure WellKnownResponse where
  schema_version : String
  developer_name : Option String
  public_key_pem : String
  revoked_keys : List String
  contact : Option String
  revocation_endpoint : Option String
deriving DecidableEq, Repr

/-- Reason for a key revocation. -/
inductive RevocationReason where
  | key_compromise
  | superseded
  | cessation_of_operation
  | privilege_withdrawn
deriving DecidableEq, Repr

/-- One revoked key entry of a revocation document. -/
structure RevokedKey where
  fingerprint : String
  revoked_at : String
  reason : RevocationReason
deriving DecidableEq, Repr

/-- A standalone revocation document. -/
structure RevocationDocument where
  schemapin_version : String
  domain : String
  updated_at : String
  revoked_keys : List RevokedKey
deriving DecidableEq, Repr

/-- Diagnostic text of an `Err` (the Rust `Display` output, without the
variant prefixes, which no verification decision depends on). -/
def errMessage : Err → String
  | .verification _ m => m
  | .io m => m
  | .discovery m => m
  | .crypto m => m

/-- `haystack.contains(needle)` on Rust strings: the needle occurs as a
contiguous run. For the ASCII needles used here, char-level and byte-level
containment coincide. -/
def strContains (s pat : String) : Bool :=
  (List.range (s.data.length + 1)).any (fun i => pat.data.isPrefixOf (s.data.drop i))

/-- `validate_well_known_response` (`discovery.rs`). -/
def validate_well_known_response (response : WellKnownResponse) : Except Err Unit :=
  if response.public_key_pem = "" then
    .error (.discovery "public_key_pem must not be empty")
  else if ¬(strContains response.public_key_pem "-----BEGIN PUBLIC KEY-----") then
    .error (.discovery "public_key_pem must be a valid PEM public key")
  else if response.schema_version = "" then
    .error (.discovery "schema_version must not be empty")
  else
    .ok ()

/-- `check_revocation` (`revocation.rs`): error iff the fingerprint occurs in
the standalone document. -/
def check_revocation (doc : RevocationDocument) (fingerprint : String) : Except Err Unit :=
  match doc.revoked_keys.find? (fun rk => rk.fingerprint == fingerprint) with
  | some _ => .error (.verification .KeyRevoked ("Key " ++ fingerprint ++ " revoked"))
  | none => .ok ()

/-- `check_revocation_combined` (`revocation.rs`): the simple list first,
then the standalone document. -/
def check_revocation_combined (simple_revoked : List String)
    (revocation_doc : Option RevocationDocument) (fingerprint : String) : Except Err Unit :=
  if simple_revoked.any (fun k => k == fingerprint) then
    .error (.verification .KeyRevoked
      ("Key " ++ fingerprint ++ " found in revoked_keys list"))
  else
    match revocation_doc with
    | some doc => check_revocation doc fingerprint
    | none => .ok ()

/-! ## Verification results and orchestrators (`src/rust/src/verification.rs`) -/

/-- Key-pinning status reported on a successful verification. -/
structure KeyPinningStatus where
  status : String
  first_seen : Option String
deriving DecidableEq, Repr

/-- Structured verification result. -/
structure VerificationResult where
  valid : Bool
  domain : Option String
  developer_name : Option String
  key_pinning : Option KeyPinningStatus
  error_code : Option ErrorCode
  error_message : Option String
  warnings : List String
deriving DecidableEq, Repr

/-- `VerificationResult::success`. -/
def VerificationResult.success (domain : String) (developer_name : Option String)
    (pin_status : KeyPinningStatus) : VerificationResult :=
  { valid := true, domain := some domain, developer_name := developer_name,
    key_pinning := some pin_status, error_code := none, error_message := none,
    warnings := [] }

/-- `VerificationResult::failure`. -/
def VerificationResult.failure (code : ErrorCode) (message : String) : VerificationResult :=
  { valid := false, domain := none, developer_name := none, key_pinning := none,
    error_code := some code, error_message := some message, warnings := [] }

/-- The external cryptographic primitives (`crypto.rs`), abstracted exactly
as the Rust code consumes them: fingerprint computation
(`calculate_key_id`), ECDSA verification (`verify_signature`, which can
return `Ok(false)` or fail), and SHA-256. -/
structure CryptoOps where
  calcKeyId : String → Except String String
  verifySig : String → List Nat → String → Except String Bool
  sha256 : List Nat → List Nat

/-- `verify_schema_offline` (`verification.rs`): the 7-step flow. `now` is
the wall clock read for pin mutation and the reported `first_seen`. -/
def verify_schema_offline (c : CryptoOps) (now : String) (schema : Json)
    (signature_b64 : String) (domain tool_id : String)
    (discovery : WellKnownResponse) (revocation : Option RevocationDocument)
    (pin_store : KeyPinStore) : VerificationResult × KeyPinStore :=
  match validate_well_known_response discovery with
  | .error e =>
    (.failure .DiscoveryInvalid ("Discovery validation failed: " ++ errMessage e), pin_store)
  | .ok _ =>
  match c.calcKeyId discovery.public_key_pem with
  | .error e =>
    (.failure .KeyNotFound ("Failed to compute key fingerprint: " ++ e), pin_store)
  | .ok fingerprint =>
  match check_revocation_combined discovery.revoked_keys revocation fingerprint with
  | .error e =>
    let code := match e with
      | .verification code _ => code
      | _ => ErrorCode.KeyRevoked
    (.failure code (errMessage e), pin_store)
  | .ok _ =>
  match check_pinning pin_store tool_id domain fingerprint now with
  | (.error e, pin_store') => (.failure .KeyPinMismatch (errMessage e), pin_store')
  | (.ok pin_result, pin_store') =>
    let schema_hash := canonicalize_and_hash c.sha256 schema
    match c.verifySig discovery.public_key_pem schema_hash signature_b64 with
    | .error e =>
      (.failure .SignatureInvalid ("Signature verification error: " ++ e), pin_store')
    | .ok false =>
      (.failure .SignatureInvalid "Schema signature is invalid", pin_store')
    | .ok true =>
      let pin_status : KeyPinningStatus :=
        match pin_result with
        | .FirstUse => { status := "first_use", first_seen := some now }
        | .Matched =>
          { status := "pinned",
            first_seen := ((pin_store'.get_tool tool_id domain).bind
              (fun t => t.pinned_keys.head?)).map (fun pk => pk.first_seen) }
        | .Changed => { status := "", first_seen := none } -- `unreachable!()` in Rust
      (.success domain discovery.developer_name pin_status, pin_store')

/-- The sync `SchemaResolver` capability set (`resolver.rs`). -/
structure SchemaResolver where
  resolve_discovery : String → Except Err WellKnownResponse
  resolve_revocation : String → WellKnownResponse → Except Err (Option RevocationDocument)

/-- `verify_schema_with_resolver` (`verification.rs`). -/
def verify_schema_with_resolver (c : CryptoOps) (now : String) (schema : Json)
    (signature_b64 : String) (domain tool_id : String)
    (resolver : SchemaResolver) (pin_store : KeyPinStore) :
    VerificationResult × KeyPinStore :=
  match resolver.resolve_discovery domain with
  | .error e =>
    (.failure .DiscoveryFetchFailed
      ("Failed to resolve discovery document: " ++ errMessage e), pin_store)
  | .ok discovery =>
    match resolver.resolve_revocation domain discovery with
    | .error _ =>
      (.failure .DiscoveryFetchFailed
        "Revocation document unreachable (fail-closed)", pin_store)
    | .ok revocation =>
      verify_schema_offline c now schema signature_b64 domain tool_id
        discovery revocation pin_store

/-! ## Skill verification (`src/rust/src/skill.rs`) -/

/-- Signature metadata written to `.schemapin.sig`. -/
structure SkillSignature where
  schemapin_version : String
  skill_name : String
  skill_hash : String
  signature : String
  signed_at : String
  domain : String
  signer_kid : String
  file_manifest : List (String × String)
deriving DecidableEq, Repr

/-- Steps 6–7 of `verify_skill_offline`: canonicalize, check the signature
over the root hash, and build the result. `pin_result` carries the outcome
of the optional pin gate together with the mutated store. -/
def skillFinish (c : CryptoOps) (now : String) (skill_dir : List Entry)
    (discovery : WellKnownResponse) (sig : SkillSignature)
    (effective_tool_id : String)
    (pin_result : Option (PinningResult × KeyPinStore)) :
    VerificationResult × Option KeyPinStore :=
  let store' := pin_result.map (fun pr => pr.2)
  match canonicalize_skill c.sha256 skill_dir with
  | .error e =>
    (.failure .SchemaCanonicalizationFailed
      ("Skill canonicalization failed: " ++ errMessage e), store')
  | .ok (root_hash, _manifest) =>
    match c.verifySig discovery.public_key_pem root_hash sig.signature with
    | .error e =>
      (.failure .SignatureInvalid ("Signature verification error: " ++ e), store')
    | .ok false =>
      (.failure .SignatureInvalid "Skill signature is invalid", store')
    | .ok true =>
      let pin_status : KeyPinningStatus :=
        match pin_result with
        | some (.FirstUse, _) => { status := "first_use", first_seen := some now }
        | some (.Matched, store) =>
          { status := "pinned",
            first_seen := ((store.get_tool effective_tool_id sig.domain).bind
              (fun t => t.pinned_keys.head?)).map (fun pk => pk.first_seen) }
        | some (.Changed, _) => { status := "", first_seen := none } -- `unreachable!()`
        | none => { status := "first_use", first_seen := some now }
      (.success sig.domain discovery.developer_name pin_status, store')

/-- `verify_skill_offline` (`skill.rs`): the 7-step flow for a skill
directory. `load_signature` abstracts reading and parsing `.schemapin.sig`
from the directory. -/
def verify_skill_offline (c : CryptoOps)
    (load_signature : List Entry → Except Err SkillSignature) (now : String)
    (skill_dir : List Entry) (discovery : WellKnownResponse)
    (signature_data : Option SkillSignature)
    (revocation_doc : Option RevocationDocument)
    (pin_store : Option KeyPinStore) (tool_id : Option String) :
    VerificationResult × Option KeyPinStore :=
  match (match signature_data with
         | some s => Except.ok s
         | none => load_signature skill_dir) with
  | .error e =>
    (.failure .SignatureInvalid
      ("Failed to load .schemapin.sig: " ++ errMessage e), pin_store)
  | .ok sig =>
  match validate_well_known_response discovery with
  | .error e =>
    (.failure .DiscoveryInvalid ("Discovery validation failed: " ++ errMessage e), pin_store)
  | .ok _ =>
  match c.calcKeyId discovery.public_key_pem with
  | .error e =>
    (.failure .KeyNotFound ("Failed to compute key fingerprint: " ++ e), pin_store)
  | .ok fingerprint =>
  match check_revocation_combined discovery.revoked_keys revocation_doc fingerprint with
  | .error e =>
    let code := match e with
      | .verification code _ => code
      | _ => ErrorCode.KeyRevoked
    (.failure code (errMessage e), pin_store)
  | .ok _ =>
  let effective_tool_id := match tool_id with
    | some s => s
    | none => sig.skill_name
  match pin_store with
  | some store =>
    match check_pinning store effective_tool_id sig.domain fingerprint now with
    | (.error e, store') =>
      (.failure .KeyPinMismatch (errMessage e), some store')
    | (.ok r, store') =>
      skillFinish c now skill_dir discovery sig effective_tool_id (some (r, store'))
  | none => skillFinish c now skill_dir discovery sig effective_tool_id none

/-- `verify_skill_with_resolver` (`skill.rs`). -/
def verify_skill_with_resolver (c : CryptoOps)
    (load_signature : List Entry → Except Err SkillSignature) (now : String)
    (skill_dir : List Entry) (domain : String) (resolver : SchemaResolver)
    (pin_store : Option KeyPinStore) (tool_id : Option String) :
    VerificationResult × Option KeyPinStore :=
  match resolver.resolve_discovery domain with
  | .error e =>
    (.failure .DiscoveryFetchFailed
      ("Failed to resolve discovery document: " ++ errMessage e), pin_store)
  | .ok discovery =>
    match resolver.resolve_revocation domain discovery with
    | .error _ =>
      (.failure .DiscoveryFetchFailed
        "Revocation document unreachable (fail-closed)", pin_store)
    | .ok revocation =>
      verify_skill_offline c load_signature now skill_dir discovery none
        revocation pin_store tool_id

/-! ## Claims about the orchestrators -/

/-- A revoked fingerprint makes the combined revocation check fail with
`KEY_REVOKED`. -/
theorem check_revocation_combined_revoked {simple : List String}
    {rev : Option RevocationDocument} {fp : String}
    (h : fp ∈ simple ∨ ∃ doc, rev = some doc ∧ ∃ rk ∈ doc.revoked_keys, rk.fingerprint = fp) :
    ∃ msg, check_revocation_combined simple rev fp =
      .error (.verification .KeyRevoked msg) := by
  by_cases hs : simple.any (fun k => k == fp) = true
  · refine ⟨"Key " ++ fp ++ " found in revoked_keys list", ?_⟩
    unfold check_revocation_combined
    rw [if_pos hs]
  · have hfp : fp ∉ simple := by
      intro hmem
      apply hs
      rw [List.any_eq_true]
      exact ⟨fp, hmem, by simp⟩
    rcases h with h | ⟨doc, hrev, rk, hrk, hfprk⟩
    · exact absurd h hfp
    · subst hrev
      refine ⟨"Key " ++ fp ++ " revoked", ?_⟩
      unfold check_revocation_combined
      rw [if_neg hs]
      show check_revocation doc fp = _
      unfold check_revocation
      have hsome : (doc.revoked_keys.find? (fun rk => rk.fingerprint == fp)).isSome := by
        rw [List.find?_isSome]
        exact ⟨rk, hrk, by simp [hfprk]⟩
      cases hf : doc.revoked_keys.find? (fun rk => rk.fingerprint == fp) with
      | none => rw [hf] at hsome; simp at hsome
      | some rk2 => rfl

/-- C2: when the fingerprint computed from `discovery.public_key_pem` is
revoked (in the simple list or the standalone document), both
`verify_schema_offline` and `verify_skill_offline` fail with `KEY_REVOKED`
and leave the pin store entirely unchanged: the revocation gate runs
strictly before the pin gate, so a revoked key is never pinned. -/
theorem C2_revoked_key_never_pinned :
    (∀ (c : CryptoOps) (now : String) (schema : Json)
       (signature_b64 domain tool_id : String) (discovery : WellKnownResponse)
       (revocation : Option RevocationDocument) (pin_store : KeyPinStore) (fp : String),
      validate_well_known_response discovery = .ok () →
      c.calcKeyId discovery.public_key_pem = .ok fp →
      (fp ∈ discovery.revoked_keys ∨
        ∃ doc, revocation = some doc ∧ ∃ rk ∈ doc.revoked_keys, rk.fingerprint = fp) →
      (verify_schema_offline c now schema signature_b64 domain tool_id
          discovery revocation pin_store).1.valid = false ∧
      (verify_schema_offline c now schema signature_b64 domain tool_id
          discovery revocation pin_store).1.error_code = some .KeyRevoked ∧
      (verify_schema_offline c now schema signature_b64 domain tool_id
          discovery revocation pin_store).2 = pin_store) ∧
    (∀ (c : CryptoOps) (load_signature : List Entry → Except Err SkillSignature)
       (now : String) (skill_dir : List Entry) (discovery : WellKnownResponse)
       (sig : SkillSignature) (revocation_doc : Option RevocationDocument)
       (pin_store : Option KeyPinStore) (tool_id : Option String) (fp : String),
      validate_well_known_response discovery = .ok () →
      c.calcKeyId discovery.public_key_pem = .ok fp →
      (fp ∈ discovery.revoked_keys ∨
        ∃ doc, revocation_doc = some doc ∧ ∃ rk ∈ doc.revoked_keys, rk.fingerprint = fp) →
      (verify_skill_offline c load_signature now skill_dir discovery (some sig)
          revocation_doc pin_store tool_id).1.valid = false ∧
      (verify_skill_offline c load_signature now skill_dir discovery (some sig)
          revocation_doc pin_store tool_id).1.error_code = some .KeyRevoked ∧
      (verify_skill_offline c load_signature now skill_dir discovery (some sig)
          revocation_doc pin_store tool_id).2 = pin_store) := by
  constructor
  · intro c now schema signature_b64 domain tool_id discovery revocation pin_store fp
      hval hkey hrev
    obtain ⟨msg, hcomb⟩ := check_revocation_combined_revoked hrev
    unfold verify_schema_offline
    simp only [hval, hkey, hcomb]
    simp [VerificationResult.failure]
  · intro c load_signature now skill_dir discovery sig revocation_doc pin_store tool_id fp
      hval hkey hrev
    obtain ⟨msg, hcomb⟩ := check_revocation_combined_revoked hrev
    unfold verify_skill_offline
    simp only [hval, hkey, hcomb]
    simp [VerificationResult.failure]

/-- Concrete crypto stand-in for instantiating the orchestrator theorems. -/
def toyCrypto : CryptoOps :=
  { calcKeyId := fun _ => .ok "sha256:aa",
    verifySig := fun _ _ _ => .ok true,
    sha256 := toySha }

/-- A discovery document whose key is on its own simple revocation list. -/
def toyDiscoveryRevoked : WellKnownResponse :=
  { schema_version := "1.2", developer_name := some "Dev",
    public_key_pem := "-----BEGIN PUBLIC KEY-----AAA",
    revoked_keys := ["sha256:aa"], contact := none, revocation_endpoint := none }

/-- A benign discovery document. -/
def toyDiscovery : WellKnownResponse :=
  { schema_version := "1.2", developer_name := some "Dev",
    public_key_pem := "-----BEGIN PUBLIC KEY-----AAA",
    revoked_keys := [], contact := none, revocation_endpoint := none }

/-- A concrete skill signature document. -/
def toySig : SkillSignature :=
  { schemapin_version := "1.3", skill_name := "toy", skill_hash := "sha256:xx",
    signature := "c2ln", signed_at := "t0", domain := "example.com",
    signer_kid := "sha256:aa", file_manifest := [] }

/-- A signature loader that always fails (never consulted in the claims
instantiated with an explicit signature). -/
def toyLoad : List Entry → Except Err SkillSignature :=
  fun _ => .error (.io "no .schemapin.sig")

/-- Concrete instantiation of `C2_revoked_key_never_pinned`: with the
fingerprint on the discovery's revoked list, both verifiers report
`KEY_REVOKED` and the store (initially empty) is untouched. -/
theorem C2_revoked_key_never_pinned_witness :
    ((verify_schema_offline toyCrypto "t0" (.obj [("name", .str "x")]) "c2ln"
        "example.com" "x" toyDiscoveryRevoked none KeyPinStore.new).1.valid = false ∧
      (verify_schema_offline toyCrypto "t0" (.obj [("name", .str "x")]) "c2ln"
        "example.com" "x" toyDiscoveryRevoked none KeyPinStore.new).1.error_code =
          some .KeyRevoked ∧
      (verify_schema_offline toyCrypto "t0" (.obj [("name", .str "x")]) "c2ln"
        "example.com" "x" toyDiscoveryRevoked none KeyPinStore.new).2 =
          KeyPinStore.new) ∧
    ((verify_skill_offline toyCrypto toyLoad "t0" toyTree toyDiscoveryRevoked
        (some toySig) none (some KeyPinStore.new) (some "toy")).1.valid = false ∧
      (verify_skill_offline toyCrypto toyLoad "t0" toyTree toyDiscoveryRevoked
        (some toySig) none (some KeyPinStore.new) (some "toy")).1.error_code =
          some .KeyRevoked ∧
      (verify_skill_offline toyCrypto toyLoad "t0" toyTree toyDiscoveryRevoked
        (some toySig) none (some KeyPinStore.new) (some "toy")).2 =
          some KeyPinStore.new) :=
  ⟨C2_revoked_key_never_pinned.1 toyCrypto "t0" (.obj [("name", .str "x")]) "c2ln"
      "example.com" "x" toyDiscoveryRevoked none KeyPinStore.new "sha256:aa"
      (by rfl) (by rfl) (Or.inl (by simp [toyDiscoveryRevoked])),
   C2_revoked_key_never_pinned.2 toyCrypto toyLoad "t0" toyTree toyDiscoveryRevoked
      toySig none (some KeyPinStore.new) (some "toy") "sha256:aa"
      (by rfl) (by rfl) (Or.inl (by simp [toyDiscoveryRevoked]))⟩

/-- The result-shape invariant: `valid = true` forces an absent error code
and a present pinning status; `valid = false` forces exactly one error code
(the single `Option ErrorCode` field being set). -/
def resultInvariant (r : VerificationResult) : Prop :=
  (r.valid = true → r.error_code = none ∧ r.key_pinning.isSome = true) ∧
  (r.valid = false → r.error_code.isSome = true)

theorem resultInvariant_failure (code : ErrorCode) (msg : String) :
    resultInvariant (.failure code msg) := by
  constructor <;> intro h <;> simp_all [VerificationResult.failure, resultInvariant]

theorem resultInvariant_success (domain : String) (developer_name : Option String)
    (ps : KeyPinningStatus) : resultInvariant (.success domain developer_name ps) := by
  constructor <;> intro h <;> simp_all [VerificationResult.success, resultInvariant]

theorem resultInvariant_skillFinish (c : CryptoOps) (now : String)
    (skill_dir : List Entry) (discovery : WellKnownResponse) (sig : SkillSignature)
    (effective_tool_id : String) (pin_result : Option (PinningResult × KeyPinStore)) :
    resultInvariant (skillFinish c now skill_dir discovery sig
      effective_tool_id pin_result).1 := by
  unfold skillFinish
  repeat' (first | split | dsimp only)
  all_goals first
    | exact resultInvariant_failure _ _
    | exact resultInvariant_success _ _ _

theorem resultInvariant_verify_schema_offline (c : CryptoOps) (now : String)
    (schema : Json) (signature_b64 domain tool_id : String)
    (discovery : WellKnownResponse) (revocation : Option RevocationDocument)
    (pin_store : KeyPinStore) :
    resultInvariant (verify_schema_offline c now schema signature_b64 domain tool_id
      discovery revocation pin_store).1 := by
  unfold verify_schema_offline
  repeat' (first | split | dsimp only)
  all_goals first
    | exact resultInvariant_failure _ _
    | exact resultInvariant_success _ _ _

theorem resultInvariant_verify_schema_with_resolver (c : CryptoOps) (now : String)
    (schema : Json) (signature_b64 domain tool_id : String)
    (resolver : SchemaResolver) (pin_store : KeyPinStore) :
    resultInvariant (verify_schema_with_resolver c now schema signature_b64 domain tool_id
      resolver pin_store).1 := by
  unfold verify_schema_with_resolver
  repeat' split
  all_goals first
    | exact resultInvariant_failure _ _
    | exact resultInvariant_verify_schema_offline _ _ _ _ _ _ _ _ _

theorem resultInvariant_verify_skill_offline (c : CryptoOps)
    (load_signature : List Entry → Except Err SkillSignature) (now : String)
    (skill_dir : List Entry) (discovery : WellKnownResponse)
    (signature_data : Option SkillSignature)
    (revocation_doc : Option RevocationDocument)
    (pin_store : Option KeyPinStore) (tool_id : Option String) :
    resultInvariant (verify_skill_offline c load_signature now skill_dir discovery
      signature_data revocation_doc pin_store tool_id).1 := by
  unfold verify_skill_offline
  repeat' (first | split | dsimp only)
  all_goals first
    | exact resultInvariant_failure _ _
    | exact resultInvariant_skillFinish _ _ _ _ _ _ _

theorem resultInvariant_verify_skill_with_resolver (c : CryptoOps)
    (load_signature : List Entry → Except Err SkillSignature) (now : String)
    (skill_dir : List Entry) (domain : String) (resolver : SchemaResolver)
    (pin_store : Option KeyPinStore) (tool_id : Option String) :
    resultInvariant (verify_skill_with_resolver c load_signature now skill_dir domain
      resolver pin_store tool_id).1 := by
  unfold verify_skill_with_resolver
  repeat' split
  all_goals first
    | exact resultInvariant_failure _ _
    | exact resultInvariant_verify_skill_offline _ _ _ _ _ _ _ _ _

/-- C3: every `VerificationResult` produced by any of the four verification
entry points satisfies: `valid = true` implies no error code and a present
`key_pinning`, and `valid = false` implies exactly one error code is set. -/
theorem C3_result_shape_invariant :
    (∀ (c : CryptoOps) (now : String) (schema : Json)
       (signature_b64 domain tool_id : String) (discovery : WellKnownResponse)
       (revocation : Option RevocationDocument) (pin_store : KeyPinStore),
      resultInvariant (verify_schema_offline c now schema signature_b64 domain tool_id
        discovery revocation pin_store).1) ∧
    (∀ (c : CryptoOps) (now : String) (schema : Json)
       (signature_b64 domain tool_id : String) (resolver : SchemaResolver)
       (pin_store : KeyPinStore),
      resultInvariant (verify_schema_with_resolver c now schema signature_b64 domain
        tool_id resolver pin_store).1) ∧
    (∀ (c : CryptoOps) (load_signature : List Entry → Except Err SkillSignature)
       (now : String) (skill_dir : List Entry) (discovery : WellKnownResponse)
       (signature_data : Option SkillSignature)
       (revocation_doc : Option RevocationDocument)
       (pin_store : Option KeyPinStore) (tool_id : Option String),
      resultInvariant (verify_skill_offline c load_signature now skill_dir discovery
        signature_data revocation_doc pin_store tool_id).1) ∧
    (∀ (c : CryptoOps) (load_signature : List Entry → Except Err SkillSignature)
       (now : String) (skill_dir : List Entry) (domain : String)
       (resolver : SchemaResolver) (pin_store : Option KeyPinStore)
       (tool_id : Option String),
      resultInvariant (verify_skill_with_resolver c load_signature now skill_dir domain
        resolver pin_store tool_id).1) :=
  ⟨fun c now schema sb d t disc rev ps =>
      resultInvariant_verify_schema_offline c now schema sb d t disc rev ps,
   fun c now schema sb d t res ps =>
      resultInvariant_verify_schema_with_resolver c now schema sb d t res ps,
   fun c l now dir disc sd rd ps t =>
      resultInvariant_verify_skill_offline c l now dir disc sd rd ps t,
   fun c l now dir d res ps t =>
      resultInvariant_verify_skill_with_resolver c l now dir d res ps t⟩

/-- Concrete instantiation of `C3_result_shape_invariant` on two of the
entry points. -/
theorem C3_result_shape_invariant_witness :
    resultInvariant (verify_schema_offline toyCrypto "t0" (.obj [("name", .str "x")])
      "c2ln" "example.com" "x" toyDiscovery none KeyPinStore.new).1 ∧
    resultInvariant (verify_skill_offline toyCrypto toyLoad "t0" toyTree toyDiscovery
      (some toySig) none none (some "toy")).1 :=
  ⟨C3_result_shape_invariant.1 toyCrypto "t0" (.obj [("name", .str "x")])
      "c2ln" "example.com" "x" toyDiscovery none KeyPinStore.new,
   C3_result_shape_invariant.2.2.1 toyCrypto toyLoad "t0" toyTree toyDiscovery
      (some toySig) none none (some "toy")⟩

/-- C8: in the resolver-driven entry points, an error from
`resolve_revocation` yields `valid = false` with `DISCOVERY_FETCH_FAILED`
(fail-closed), regardless of signature, pin state, or document contents. -/
theorem C8_revocation_resolution_fail_closed :
    (∀ (c : CryptoOps) (now : String) (schema : Json)
       (signature_b64 domain tool_id : String) (resolver : SchemaResolver)
       (pin_store : KeyPinStore) (discovery : WellKnownResponse) (e : Err),
      resolver.resolve_discovery domain = .ok discovery →
      resolver.resolve_revocation domain discovery = .error e →
      verify_schema_with_resolver c now schema signature_b64 domain tool_id
          resolver pin_store =
        (.failure .DiscoveryFetchFailed
          "Revocation document unreachable (fail-closed)", pin_store)) ∧
    (∀ (c : CryptoOps) (load_signature : List Entry → Except Err SkillSignature)
       (now : String) (skill_dir : List Entry) (domain : String)
       (resolver : SchemaResolver) (pin_store : Option KeyPinStore)
       (tool_id : Option String) (discovery : WellKnownResponse) (e : Err),
      resolver.resolve_discovery domain = .ok discovery →
      resolver.resolve_revocation domain discovery = .error e →
      verify_skill_with_resolver c load_signature now skill_dir domain resolver
          pin_store tool_id =
        (.failure .DiscoveryFetchFailed
          "Revocation document unreachable (fail-closed)", pin_store)) := by
  constructor
  · intro c now schema signature_b64 domain tool_id resolver pin_store discovery e hd hr
    unfold verify_schema_with_resolver
    simp only [hd, hr]
  · intro c load_signature now skill_dir domain resolver pin_store tool_id discovery e hd hr
    unfold verify_skill_with_resolver
    simp only [hd, hr]

/-- A resolver that finds the toy discovery document but cannot reach the
revocation source. -/
def toyBrokenResolver : SchemaResolver :=
  { resolve_discovery := fun _ => .ok toyDiscovery,
    resolve_revocation := fun _ _ => .error (.discovery "timeout") }

/-- Concrete instantiation of `C8_revocation_resolution_fail_closed`. -/
theorem C8_fail_closed_witness :
    verify_schema_with_resolver toyCrypto "t0" (.obj [("name", .str "x")]) "c2ln"
        "example.com" "x" toyBrokenResolver KeyPinStore.new =
      (.failure .DiscoveryFetchFailed
        "Revocation document unreachable (fail-closed)", KeyPinStore.new) ∧
    verify_skill_with_resolver toyCrypto toyLoad "t0" toyTree "example.com"
        toyBrokenResolver none (some "toy") =
      (.failure .DiscoveryFetchFailed
        "Revocation document unreachable (fail-closed)", none) :=
  ⟨C8_revocation_resolution_fail_closed.1 toyCrypto "t0" (.obj [("name", .str "x")])
      "c2ln" "example.com" "x" toyBrokenResolver KeyPinStore.new toyDiscovery
      (.discovery "timeout") rfl rfl,
   C8_revocation_resolution_fail_closed.2 toyCrypto toyLoad "t0" toyTree "example.com"
      toyBrokenResolver none (some "toy") toyDiscovery
      (.discovery "timeout") rfl rfl⟩

/-- C9: with `pin_store = None` and every other gate passing,
`verify_skill_offline` succeeds with `key_pinning.status = "first_use"` and
a freshly generated `first_seen`, even though no pin store was consulted or
mutated — the TOFU gate is silently skipped rather than failing. -/
theorem C9_none_store_reports_first_use (c : CryptoOps)
    (load_signature : List Entry → Except Err SkillSignature) (now : String)
    (skill_dir : List Entry) (discovery : WellKnownResponse) (sig : SkillSignature)
    (revocation_doc : Option RevocationDocument) (tool_id : Option String)
    (fp : String) (root : List Nat) (m : List (String × String))
    (hval : validate_well_known_response discovery = .ok ())
    (hkey : c.calcKeyId discovery.public_key_pem = .ok fp)
    (hrev : check_revocation_combined discovery.revoked_keys revocation_doc fp = .ok ())
    (hcan : canonicalize_skill c.sha256 skill_dir = .ok (root, m))
    (hsig : c.verifySig discovery.public_key_pem root sig.signature = .ok true) :
    verify_skill_offline c load_signature now skill_dir discovery (some sig)
        revocation_doc none tool_id =
      (.success sig.domain discovery.developer_name
        { status := "first_use", first_seen := some now }, none) := by
  unfold verify_skill_offline
  simp only [hval, hkey, hrev]
  unfold skillFinish
  simp only [hcan, hsig]
  rfl

/-- Concrete instantiation of `C9_none_store_reports_first_use` on the toy
tree and discovery document. -/
theorem C9_none_store_witness :
    verify_skill_offline toyCrypto toyLoad "t0" toyTree toyDiscovery (some toySig)
        none none (some "toy") =
      (.success "example.com" (some "Dev")
        { status := "first_use", first_seen := some "t0" }, none) :=
  C9_none_store_reports_first_use toyCrypto toyLoad "t0" toyTree toyDiscovery toySig
    none (some "toy") "sha256:aa" [4]
    [("b.txt", "sha256:06"), ("sub/a.txt", "sha256:0a")]
    (by rfl) (by rfl) (by rfl) canonicalize_skill_toyTree (by rfl)

/-- C7: a directory with no collected files makes `canonicalize_skill` fail,
and (when the earlier gates pass) `verify_skill_offline` surfaces that
failure as `valid = false` with `SCHEMA_CANONICALIZATION_FAILED`. -/
theorem C7_empty_dir_canonicalization_failed (c : CryptoOps)
    (load_signature : List Entry → Except Err SkillSignature) (now : String)
    (skill_dir : List Entry) (discovery : WellKnownResponse) (sig : SkillSignature)
    (revocation_doc : Option RevocationDocument) (tool_id : Option String)
    (fp : String)
    (hempty : walk_sorted c.sha256 skill_dir = [])
    (hval : validate_well_known_response discovery = .ok ())
    (hkey : c.calcKeyId discovery.public_key_pem = .ok fp)
    (hrev : check_revocation_combined discovery.revoked_keys revocation_doc fp = .ok ()) :
    canonicalize_skill c.sha256 skill_dir =
      .error (.io "skill directory contains no files") ∧
    (verify_skill_offline c load_signature now skill_dir discovery (some sig)
        revocation_doc none tool_id).1.valid = false ∧
    (verify_skill_offline c load_signature now skill_dir discovery (some sig)
        revocation_doc none tool_id).1.error_code = some .SchemaCanonicalizationFailed := by
  have hcan : canonicalize_skill c.sha256 skill_dir =
      .error (.io "skill directory contains no files") := by
    unfold canonicalize_skill
    rw [hempty]
    rfl
  refine ⟨hcan, ?_, ?_⟩ <;>
    · unfold verify_skill_offline
      simp only [hval, hkey, hrev]
      unfold skillFinish
      simp only [hcan]
      rfl

/-- Concrete instantiation of `C7_empty_dir_canonicalization_failed` on the
literally empty directory. -/
theorem C7_empty_dir_witness :
    canonicalize_skill toyCrypto.sha256 [] =
      .error (.io "skill directory contains no files") ∧
    (verify_skill_offline toyCrypto toyLoad "t0" [] toyDiscovery (some toySig)
        none none (some "toy")).1.valid = false ∧
    (verify_skill_offline toyCrypto toyLoad "t0" [] toyDiscovery (some toySig)
        none none (some "toy")).1.error_code = some .SchemaCanonicalizationFailed := by
  have hc : collectDir [] ([] : List Entry) = [] := by
    rw [collectDir_unfold]
    rfl
  have hempty : walk_sorted toyCrypto.sha256 [] = [] := by
    unfold walk_sorted
    rw [hc]
    rfl
  exact C7_empty_dir_canonicalization_failed toyCrypto toyLoad "t0" [] toyDiscovery
    toySig none (some "toy") "sha256:aa" hempty (by rfl) (by rfl) (by rfl)

end SchemaPin
